import Mathlib

/-!
Verification of the deterministic propagation-engine core of the
Optimum Interactive Web Interface Visualization repository: the GF(2^8)
table arithmetic, the incremental rank tracker, the event min-heap, and
the discrete-event propagation engine, shallowly embedded from the
TypeScript sources.
-/

set_option autoImplicit false

namespace Spec2Proof

/-! ### GF(2^8) arithmetic (src/lib/galoisField.ts)

The source builds `EXP_TABLE`/`LOG_TABLE` once at module load:

    let x = 1;
    for (let i = 0; i < 255; i++) {
      EXP_TABLE[i] = x; EXP_TABLE[i + 255] = x; LOG_TABLE[x] = i;
      x = (x << 1) ^ (x & 0x80 ? PRIMITIVE_POLY : 0); x &= 0xff;
    }
    LOG_TABLE[0] = 0;
-/

/-- One step of the table-building loop: `x = ((x << 1) ^ (x & 0x80 ? 0x11B : 0)) & 0xff`. -/
def gfStep (x : Nat) : Nat :=
  ((x <<< 1) ^^^ (if x &&& 0x80 ≠ 0 then 0x11B else 0)) &&& 0xFF

/-- The successive values taken by `x` in the loop: `expSeq i` is the value
written to `EXP_TABLE[i]` (and `EXP_TABLE[i+255]`). -/
def expSeq : Nat → Nat
  | 0 => 1
  | n + 1 => gfStep (expSeq n)

/-- The list `[expSeq 0, …, expSeq 254]` of values written into the table. -/
def expList : List Nat := (List.range 255).map expSeq

/-- `EXP_TABLE` lookup. Entries `0..254` and `255..509` hold the loop values;
entries `510, 511` of the `Uint8Array(512)` stay `0`. -/
def expAt (i : Nat) : Nat :=
  if i < 255 then expList.getD i 0
  else if i < 510 then expList.getD (i - 255) 0
  else 0

/-- `LOG_TABLE` lookup: the loop writes `LOG_TABLE[x_i] = i` for `i = 0..254`
(last write wins, unwritten entries are `0`), then sets `LOG_TABLE[0] = 0`. -/
def logAt (a : Nat) : Nat :=
  if a = 0 then 0
  else (List.range 255).foldl (fun acc i => if expSeq i = a then i else acc) 0

/-- `gfAdd(a, b) = a ^ b`. -/
def gfAdd (a b : Nat) : Nat := a ^^^ b

/-- `gfMul` via the tables: `0` if either factor is `0`, else
`EXP_TABLE[LOG_TABLE[a] + LOG_TABLE[b]]`. -/
def gfMul (a b : Nat) : Nat :=
  if a = 0 ∨ b = 0 then 0 else expAt (logAt a + logAt b)

/-- `gfInv` throws on `0` ("Cannot invert 0 in GF(2^8)"); we model the throw
as `none`. Otherwise it returns `EXP_TABLE[255 - LOG_TABLE[a]]`. -/
def gfInvE (a : Nat) : Option Nat :=
  if a = 0 then none else some (expAt (255 - logAt a))

/-- The table expression `EXP_TABLE[255 - LOG_TABLE[a]]` of `gfInv`, as a total
function. It agrees with `gfInvE` on every nonzero argument
(`gfInvE_eq_gfInvT`); the rank tracker only ever inverts nonzero pivots. -/
def gfInvT (a : Nat) : Nat := expAt (255 - logAt a)

theorem gfInvE_eq_gfInvT (a : Nat) (h : a ≠ 0) : gfInvE a = some (gfInvT a) := by
  simp [gfInvE, gfInvT, h]

/-! ### Structure of the tables

The build loop multiplies by `x` (`0x02`) each step; with the polynomial
`0x11B` that element has multiplicative order 51, so the exponent table is
periodic with period 51. The facts below are established by evaluation and
give an exact algebraic description of the tables as built.
-/

set_option maxRecDepth 10000

/-- The exponent table is periodic with period 51 on all indices the code
can touch (`LOG+LOG ≤ 508 < 510`). -/
theorem expAt_mod51 : ∀ i : Fin 510, expAt i = expAt ((i : Nat) % 51) := by decide

/-- Log is a left inverse of exp modulo the period. -/
theorem logAt_expAt : ∀ m : Fin 51, logAt (expAt (m : Nat)) % 51 = (m : Nat) := by decide

/-- No entry of one period of the exponent table is zero. -/
theorem expAt_ne_zero : ∀ j : Fin 51, expAt (j : Nat) ≠ 0 := by decide

theorem expAt_zero : expAt 0 = 1 := by decide

theorem foldl_last_write_le {l : List Nat} {acc : Nat} {a : Nat} (hl : ∀ i ∈ l, i ≤ 254)
    (hacc : acc ≤ 254) :
    l.foldl (fun acc i => if expSeq i = a then i else acc) acc ≤ 254 := by
  induction l generalizing acc with
  | nil => exact hacc
  | cons x xs ih =>
    refine ih (fun i hi => hl i (List.mem_cons_of_mem _ hi)) ?_
    by_cases hx : expSeq x = a <;> simp [hx]
    · exact hl x (List.mem_cons_self _ _)
    · exact hacc

/-- `LOG_TABLE` entries never exceed 254. -/
theorem logAt_le (a : Nat) : logAt a ≤ 254 := by
  unfold logAt
  by_cases h : a = 0
  · simp [h]
  · simp only [h, if_false]
    refine foldl_last_write_le (fun i hi => ?_) (Nat.zero_le _)
    have := List.mem_range.mp hi
    omega

theorem gfMul_norm {a b : Nat} (ha : a ≠ 0) (hb : b ≠ 0) :
    gfMul a b = expAt ((logAt a + logAt b) % 51) := by
  have h1 := logAt_le a
  have h2 := logAt_le b
  unfold gfMul
  simp only [ha, hb, or_self, if_false]
  exact expAt_mod51 ⟨logAt a + logAt b, by omega⟩

theorem gfMul_ne_zero {a b : Nat} (ha : a ≠ 0) (hb : b ≠ 0) : gfMul a b ≠ 0 := by
  rw [gfMul_norm ha hb]
  exact expAt_ne_zero ⟨(logAt a + logAt b) % 51, Nat.mod_lt _ (by omega)⟩

theorem logAt_gfMul_mod {a b : Nat} (ha : a ≠ 0) (hb : b ≠ 0) :
    logAt (gfMul a b) % 51 = (logAt a + logAt b) % 51 := by
  rw [gfMul_norm ha hb]
  have := logAt_expAt ⟨(logAt a + logAt b) % 51, Nat.mod_lt _ (by omega)⟩
  simpa using this

theorem gfMul_comm (a b : Nat) : gfMul a b = gfMul b a := by
  unfold gfMul
  rw [Nat.add_comm]
  by_cases ha : a = 0 <;> by_cases hb : b = 0 <;> simp [ha, hb]

theorem gfMul_assoc (a b c : Nat) : gfMul (gfMul a b) c = gfMul a (gfMul b c) := by
  by_cases ha : a = 0
  · simp [gfMul, ha]
  by_cases hb : b = 0
  · simp [gfMul, hb]
  by_cases hc : c = 0
  · simp [gfMul, hc]
  have hab := gfMul_ne_zero ha hb
  have hbc := gfMul_ne_zero hb hc
  rw [gfMul_norm hab hc, gfMul_norm ha hbc]
  have e1 : (logAt (gfMul a b) + logAt c) % 51 = (logAt a + (logAt b + logAt c)) % 51 := by
    have h1 := logAt_gfMul_mod ha hb
    omega
  have e2 : (logAt a + logAt (gfMul b c)) % 51 = (logAt a + (logAt b + logAt c)) % 51 := by
    have h1 := logAt_gfMul_mod hb hc
    omega
  rw [e1, e2]

theorem gfMul_gfInvT {a : Nat} (ha : a ≠ 0) : gfMul a (gfInvT a) = 1 := by
  have hla := logAt_le a
  have hv : gfInvT a = expAt ((255 - logAt a) % 51) := by
    unfold gfInvT
    exact expAt_mod51 ⟨255 - logAt a, by omega⟩
  have hvne : gfInvT a ≠ 0 := by
    rw [hv]
    exact expAt_ne_zero ⟨(255 - logAt a) % 51, Nat.mod_lt _ (by omega)⟩
  rw [gfMul_norm ha hvne]
  have hlog : logAt (gfInvT a) % 51 = (255 - logAt a) % 51 := by
    rw [hv]
    have := logAt_expAt ⟨(255 - logAt a) % 51, Nat.mod_lt _ (by omega)⟩
    simpa using this
  have hz : (logAt a + logAt (gfInvT a)) % 51 = 0 := by omega
  rw [hz, expAt_zero]

/-- C3: for all field elements `a, b, c` in `0..255`: `gfAdd` is commutative and
self-inverse (`gfAdd a a = 0`), `gfMul` is commutative and associative,
`gfMul a (gfInv a) = 1` for every `a ≠ 0`, and `gfInv 0` fails with an explicit
error (modelled as `none`) rather than returning a value. -/
theorem C3_field_algebra (a b c : Fin 256) :
    gfAdd a b = gfAdd b a ∧
    gfAdd a a = 0 ∧
    gfMul a b = gfMul b a ∧
    gfMul (gfMul a b) c = gfMul a (gfMul b c) ∧
    ((a : Nat) ≠ 0 → ∃ v, gfInvE a = some v ∧ gfMul a v = 1) ∧
    gfInvE 0 = none := by
  refine ⟨Nat.xor_comm _ _, Nat.xor_self _, gfMul_comm _ _, gfMul_assoc _ _ _, ?_, rfl⟩
  intro ha
  exact ⟨gfInvT a, gfInvE_eq_gfInvT _ ha, gfMul_gfInvT ha⟩

/-- Witness for C3 at concrete inputs, discharging the nonzero hypothesis. -/
theorem C3_field_algebra_witness :
    gfMul (gfMul 2 3) 7 = gfMul 2 (gfMul 3 7) ∧
    (∃ v, gfInvE 2 = some v ∧ gfMul 2 v = 1) := by
  have h := C3_field_algebra 2 3 7
  exact ⟨h.2.2.2.1, h.2.2.2.2.1 (by decide)⟩

/-! ### Incremental rank tracker (src/lib/gaussianElimination.ts)

`IncrementalRankTracker` keeps an array of `k` pivot slots (`null` or a row)
and a rank counter; `addRow` performs partial Gaussian elimination.
-/

/-- The tracker state: dimension `k`, pivot slots, rank counter. -/
structure RankTracker where
  k : Nat
  pivots : List (Option (List Nat))
  rank : Nat
  deriving Repr, DecidableEq

/-- `new IncrementalRankTracker(k)`: `k` null pivot slots, rank 0. -/
def RankTracker.make (k : Nat) : RankTracker :=
  ⟨k, List.replicate k none, 0⟩

/-- `isFullRank`: `this._rank >= this.k`. -/
def RankTracker.isFullRank (t : RankTracker) : Bool := t.k ≤ t.rank

/-- One elimination pass: `r[j] = gfAdd(r[j], gfMul(factor, pivot[j]))` for all `j`. -/
def elimRow (factor : Nat) (r p : List Nat) : List Nat :=
  List.zipWith (fun x y => gfAdd x (gfMul factor y)) r p

/-- The `for (col = 0; col < k; col++)` loop of `addRow`, over the remaining
column indices. Returns the new pivot array and whether a pivot was installed. -/
def addRowLoop (pivots : List (Option (List Nat))) (r : List Nat) :
    List Nat → List (Option (List Nat)) × Bool
  | [] => (pivots, false)
  | col :: rest =>
    if r.getD col 0 = 0 then addRowLoop pivots r rest
    else
      match pivots.getD col none with
      | some p =>
        addRowLoop pivots (elimRow (gfMul (r.getD col 0) (gfInvT (p.getD col 0))) r p) rest
      | none => (pivots.set col (some r), true)

/-- `addRow(row)`: copy the row, run the column loop, and on success install
the pivot and increment the rank. Returns the updated tracker and the boolean
result of `addRow`. -/
def RankTracker.addRow (t : RankTracker) (row : List Nat) : RankTracker × Bool :=
  let res := addRowLoop t.pivots row (List.range t.k)
  if res.2 then (⟨t.k, res.1, t.rank + 1⟩, true) else (⟨t.k, res.1, t.rank⟩, false)

/-- Feed a list of rows in order, returning the final tracker and the list of
`addRow` results. -/
def RankTracker.addRows (t : RankTracker) : List (List Nat) → RankTracker × List Bool
  | [] => (t, [])
  | row :: rest =>
    let r := t.addRow row
    let rec' := RankTracker.addRows r.1 rest
    (rec'.1, r.2 :: rec'.2)

/-- C1 fails on the code: with `k = 2`, after `addRow [1, 5]` was accepted, the
very same row `[1, 5]` — linearly dependent on the rows previously added (it
*is* one of them, with coefficient 1) — is accepted again: `addRow` returns
`true` and installs a second pivot, instead of reducing the row to zero and
returning `false`. The exponent/log tables are built by repeated multiplication
by `x` (`0x02`), which has order 51 modulo `0x11B`, not 255 as a generator
would; the elimination step therefore fails to cancel the leading column. -/
theorem C1_addRow_accepts_dependent_row :
    ((RankTracker.make 2).addRows [[1, 5], [1, 5]]).2 = [true, true] ∧
    ((RankTracker.make 2).addRows [[1, 5], [1, 5]]).1.rank = 2 := by decide

/-- C2 fails on the code: feeding the exact same vector `[1, 3]` a second time
to a fresh `k = 2` tracker increases the rank from 1 to 2 (the tracker even
reports full rank after seeing a single distinct vector twice). -/
theorem C2_duplicate_row_increases_rank :
    ((RankTracker.make 2).addRow [1, 3]).2 = true ∧
    ((RankTracker.make 2).addRow [1, 3]).1.rank = 1 ∧
    (((RankTracker.make 2).addRow [1, 3]).1.addRow [1, 3]).2 = true ∧
    (((RankTracker.make 2).addRow [1, 3]).1.addRow [1, 3]).1.rank = 2 ∧
    (((RankTracker.make 2).addRow [1, 3]).1.addRow [1, 3]).1.isFullRank = true := by
  decide

/-! ### Simulation events and the event min-heap (src/simulation/eventQueue.ts)

Simulated times are exact rationals (the TypeScript source uses doubles; all
quantities involved are small decimal fractions).
-/

inductive Protocol where
  | rlnc
  | gossipsub
  deriving Repr, DecidableEq

inductive EventKind where
  | shard_arrive
  | message_arrive
  deriving Repr, DecidableEq

/-- A scheduled simulation event (`SimEvent` in the source). -/
structure SimEvent where
  fireAt : ℚ
  seq : Nat
  protocol : Protocol
  kind : EventKind
  fromNode : String
  toNode : String
  shardIndex : Option Nat := none
  codingVector : Option (List Nat) := none
  dropped : Bool
  deriving Repr, DecidableEq

instance : Inhabited SimEvent :=
  ⟨{ fireAt := 0, seq := 0, protocol := .rlnc, kind := .shard_arrive,
     fromNode := "", toNode := "", dropped := false }⟩

/-- `compare(a, b)`: `d = a.fireAt - b.fireAt; d !== 0 ? d : a.seq - b.seq`. -/
def hcmp (a b : SimEvent) : ℚ :=
  if a.fireAt - b.fireAt ≠ 0 then a.fireAt - b.fireAt else (a.seq : ℚ) - (b.seq : ℚ)

/-- Strict lexicographic order on `(fireAt, seq)`. -/
def keyLT (a b : SimEvent) : Prop :=
  a.fireAt < b.fireAt ∨ (a.fireAt = b.fireAt ∧ a.seq < b.seq)

/-- Reflexive lexicographic order on `(fireAt, seq)`. -/
def keyLE (a b : SimEvent) : Prop :=
  a.fireAt < b.fireAt ∨ (a.fireAt = b.fireAt ∧ a.seq ≤ b.seq)

instance (a b : SimEvent) : Decidable (keyLT a b) := by unfold keyLT; infer_instance

instance (a b : SimEvent) : Decidable (keyLE a b) := by unfold keyLE; infer_instance

theorem hcmp_neg_iff (a b : SimEvent) : hcmp a b < 0 ↔ keyLT a b := by
  unfold hcmp keyLT
  by_cases h : a.fireAt - b.fireAt = 0
  · have heq : a.fireAt = b.fireAt := by linarith
    rw [if_neg (not_not_intro h)]
    constructor
    · intro hlt
      right
      refine ⟨heq, ?_⟩
      by_contra hc
      push_neg at hc
      have hb : (b.seq : ℚ) ≤ (a.seq : ℚ) := by exact_mod_cast hc
      linarith
    · rintro (hlt | ⟨_, hseq⟩)
      · rw [heq] at hlt
        exact absurd hlt (lt_irrefl _)
      · have hq : (a.seq : ℚ) < (b.seq : ℚ) := by exact_mod_cast hseq
        linarith
  · rw [if_pos h]
    constructor
    · intro hlt
      exact Or.inl (by linarith)
    · rintro (hlt | ⟨heq, _⟩)
      · linarith
      · exact absurd (by rw [heq]; ring) h

theorem not_keyLT_iff (a b : SimEvent) : ¬ keyLT a b ↔ keyLE b a := by
  unfold keyLT keyLE
  constructor
  · intro h
    rcases lt_trichotomy a.fireAt b.fireAt with hlt | heq | hgt
    · exact absurd (Or.inl hlt) h
    · right
      refine ⟨heq.symm, ?_⟩
      by_contra hc
      push_neg at hc
      exact h (Or.inr ⟨heq, hc⟩)
    · exact Or.inl hgt
  · rintro (hlt | ⟨heq, hle⟩) h2
    · rcases h2 with h2 | ⟨h3, _⟩
      · linarith
      · rw [h3] at hlt
        exact absurd hlt (lt_irrefl _)
    · rcases h2 with h2 | ⟨_, h4⟩
      · rw [heq] at h2
        exact absurd h2 (lt_irrefl _)
      · omega

theorem keyLE_refl (a : SimEvent) : keyLE a a := Or.inr ⟨rfl, le_refl _⟩

theorem keyLE_trans {a b c : SimEvent} (h1 : keyLE a b) (h2 : keyLE b c) : keyLE a c := by
  unfold keyLE at *
  rcases h1 with h1 | ⟨e1, s1⟩ <;> rcases h2 with h2 | ⟨e2, s2⟩
  · exact Or.inl (lt_trans h1 h2)
  · exact Or.inl (e2 ▸ h1)
  · exact Or.inl (e1 ▸ h2)
  · exact Or.inr ⟨e1.trans e2, s1.trans s2⟩

theorem keyLT_keyLE {a b : SimEvent} (h : keyLT a b) : keyLE a b := by
  unfold keyLT keyLE at *
  rcases h with h | ⟨e, s⟩
  · exact Or.inl h
  · exact Or.inr ⟨e, Nat.le_of_lt s⟩

/-- List lookup with the JS out-of-bounds treated by a default (the heap code
never reads out of bounds). -/
def nth (l : List SimEvent) (i : Nat) : SimEvent := l.getD i default

/-- The destructuring swap `[h[i], h[j]] = [h[j], h[i]]`. -/
def swapL (l : List SimEvent) (i j : Nat) : List SimEvent :=
  (l.set i (nth l j)).set j (nth l i)

/-- Index of a node's parent in the implicit binary tree. -/
def hpar (i : Nat) : Nat := (i - 1) / 2

/-- `bubbleUp(i)`: while `i > 0`, swap with the parent while strictly smaller. -/
def bubbleUp (l : List SimEvent) (i : Nat) : List SimEvent :=
  if i = 0 then l
  else if hcmp (nth l i) (nth l (hpar i)) < 0 then
    bubbleUp (swapL l i (hpar i)) (hpar i)
  else l
  termination_by i
  decreasing_by
    simp only [hpar]
    omega

/-- The index `smallest` after comparing with the left child. -/
def smallestIdx1 (l : List SimEvent) (i : Nat) : Nat :=
  if 2 * i + 1 < l.length ∧ hcmp (nth l (2 * i + 1)) (nth l i) < 0 then 2 * i + 1 else i

/-- The index `smallest` computed by one `sinkDown` iteration. -/
def smallestIdx (l : List SimEvent) (i : Nat) : Nat :=
  if 2 * i + 2 < l.length ∧ hcmp (nth l (2 * i + 2)) (nth l (smallestIdx1 l i)) < 0 then
    2 * i + 2
  else smallestIdx1 l i

theorem smallestIdx1_cases (l : List SimEvent) (i : Nat) :
    smallestIdx1 l i = i ∨ (smallestIdx1 l i = 2 * i + 1 ∧ 2 * i + 1 < l.length) := by
  unfold smallestIdx1
  by_cases h1 : 2 * i + 1 < l.length ∧ hcmp (nth l (2 * i + 1)) (nth l i) < 0
  · rw [if_pos h1]
    exact Or.inr ⟨rfl, h1.1⟩
  · rw [if_neg h1]
    exact Or.inl rfl

theorem smallestIdx_cases (l : List SimEvent) (i : Nat) :
    smallestIdx l i = i ∨ (i < smallestIdx l i ∧ smallestIdx l i < l.length) := by
  unfold smallestIdx
  by_cases h2 : 2 * i + 2 < l.length ∧ hcmp (nth l (2 * i + 2)) (nth l (smallestIdx1 l i)) < 0
  · rw [if_pos h2]
    right
    omega
  · rw [if_neg h2]
    rcases smallestIdx1_cases l i with h | ⟨h, hlt⟩
    · exact Or.inl h
    · right
      omega

/-- `sinkDown(i)`: repeatedly swap with the smallest child. -/
def sinkDown (l : List SimEvent) (i : Nat) : List SimEvent :=
  if hs : smallestIdx l i ≠ i then
    have hrange : i < smallestIdx l i ∧ smallestIdx l i < l.length := by
      rcases smallestIdx_cases l i with h | h
      · exact absurd h hs
      · exact h
    sinkDown (swapL l i (smallestIdx l i)) (smallestIdx l i)
  else l
  termination_by l.length - i
  decreasing_by
    have hlen : (swapL l i (smallestIdx l i)).length = l.length := by
      simp [swapL, List.length_set]
    omega

/-- The min-heap state: backing array plus the monotone sequence counter. -/
structure MinHeap where
  heap : List SimEvent
  seqCounter : Nat
  deriving Repr, DecidableEq

def MinHeap.empty : MinHeap := ⟨[], 0⟩

/-- `push(event)`: stamp `event.seq` from the counter, append, bubble up. -/
def MinHeap.push (h : MinHeap) (e : SimEvent) : MinHeap :=
  let e' := { e with seq := h.seqCounter }
  let l := h.heap ++ [e']
  ⟨bubbleUp l (l.length - 1), h.seqCounter + 1⟩

/-- `pop()`: return the root; move the last element to the root and sink it. -/
def MinHeap.pop (h : MinHeap) : Option SimEvent × MinHeap :=
  match h.heap with
  | [] => (none, h)
  | top :: rest =>
    let l' := (top :: rest).dropLast
    if l'.length > 0 then
      (some top, ⟨sinkDown (l'.set 0 ((top :: rest).getLast (by simp))) 0, h.seqCounter⟩)
    else
      (some top, ⟨[], h.seqCounter⟩)

/-- `peek()`. -/
def MinHeap.peek (h : MinHeap) : Option SimEvent := h.heap.head?

/-- `clear()`. -/
def MinHeap.clear (_h : MinHeap) : MinHeap := ⟨[], 0⟩

/-! ### The propagation engine (src/simulation/engine.ts)

JS `Map`s are modelled as association lists (insert preserves order, set of an
existing key updates in place), JS `Set`s as duplicate-free lists. The seeded
PRNG collaborator is an explicit stream `Nat → ℚ` with a cursor in the state;
`random()` reads the stream at the cursor and advances it.
-/

/-- JS `Map.get`. -/
def alGet {α : Type} (m : List (String × α)) (k : String) : Option α :=
  (m.find? (fun p => p.1 == k)).map (fun p => p.2)

/-- JS `Map.set`: overwrite if present, else append. -/
def alSet {α : Type} (m : List (String × α)) (k : String) (v : α) : List (String × α) :=
  if m.any (fun p => p.1 == k) then
    m.map (fun p => if p.1 == k then (k, v) else p)
  else m ++ [(k, v)]

/-- JS `Set.add`. -/
def sAdd (s : List String) (x : String) : List String :=
  if x ∈ s then s else s ++ [x]

/-- An edge row of the topology (`Edge` in src/simulation/types.ts). -/
structure Edge where
  id : String
  source : String
  target : String
  latencyMs : ℚ
  packetLossRate : ℚ
  deriving Repr, DecidableEq

/-- The node shape the engine receives: `{ id, neighbors }`. -/
structure NodeInfo where
  id : String
  neighbors : List String
  deriving Repr, DecidableEq

structure RlncMetrics where
  totalTransmissions : Nat
  usefulTransmissions : Nat
  deliveredNodes : List String
  lastDeliverySimMs : Option ℚ
  allDone : Bool
  deriving Repr, DecidableEq

structure GossipMetrics where
  totalTransmissions : Nat
  usefulTransmissions : Nat
  duplicates : Nat
  deliveredNodes : List String
  lastDeliverySimMs : Option ℚ
  allDone : Bool
  deriving Repr, DecidableEq

/-- `EngineMetrics`. -/
structure EngineMetrics where
  rlnc : RlncMetrics
  gossipsub : GossipMetrics
  deriving Repr, DecidableEq

def emptyEngineMetrics : EngineMetrics :=
  { rlnc := { totalTransmissions := 0, usefulTransmissions := 0, deliveredNodes := [],
              lastDeliverySimMs := none, allDone := false },
    gossipsub := { totalTransmissions := 0, usefulTransmissions := 0, duplicates := 0,
                   deliveredNodes := [], lastDeliverySimMs := none, allDone := false } }

/-- `AnimatedParticle` (only ever written, never read back by the engine). -/
structure AnimatedParticle where
  id : String
  protocol : Protocol
  fromNode : String
  toNode : String
  progress : ℚ
  duration : ℚ
  startTime : ℚ
  shardIndex : Option Nat := none
  dropped : Bool
  isRedundant : Bool
  deriving Repr, DecidableEq

/-- The engine's module-level singleton state, as one record, plus the PRNG
stream collaborator and its cursor. -/
structure EngineState where
  eventQueue : MinHeap
  rlncTrackers : List (String × RankTracker)
  gossipReceived : List String
  gossipForwarded : List String
  gossipLastDuplicateSimTime : List (String × ℚ)
  rlncLastRedundantSimTime : List (String × ℚ)
  edgeLookup : List (String × Edge)
  rlncNodeDeliveryTime : List (String × ℚ)
  gossipNodeDeliveryTime : List (String × ℚ)
  rlncRecodePushes : List (String × Nat)
  gossipRetries : List (String × Nat)
  metrics : EngineMetrics
  subscriberIds : List String
  publisherId : Option String
  simK : Nat
  simLossRate : ℚ
  simNodes : List NodeInfo
  rng : Nat → ℚ
  rngIdx : Nat

def MAX_RLNC_PUSHES_PER_NODE : Nat := 12
def RLNC_PUSH_INTERVAL : ℚ := 3
def MAX_GOSSIP_RETRIES : Nat := 4
def GOSSIP_RETRY_INTERVAL : ℚ := 80
def PUBLISHER_RESEND_TIMES : List Nat := [100, 250, 500]

/-- A fresh engine (module load): empty queue, empty maps, given PRNG. -/
def EngineState.fresh (rng : Nat → ℚ) : EngineState :=
  { eventQueue := MinHeap.empty, rlncTrackers := [], gossipReceived := [],
    gossipForwarded := [], gossipLastDuplicateSimTime := [],
    rlncLastRedundantSimTime := [], edgeLookup := [], rlncNodeDeliveryTime := [],
    gossipNodeDeliveryTime := [], rlncRecodePushes := [], gossipRetries := [],
    metrics := emptyEngineMetrics, subscriberIds := [], publisherId := none,
    simK := 4, simLossRate := 0, simNodes := [], rng := rng, rngIdx := 0 }

/-- `random()`: one stream draw. -/
def EngineState.draw (st : EngineState) : ℚ × EngineState :=
  (st.rng st.rngIdx, { st with rngIdx := st.rngIdx + 1 })

/-- `gfRandom(rng) = Math.floor(rng() * 255) + 1`. -/
def gfRandom (r : ℚ) : Nat := (⌊r * 255⌋ + 1).toNat

/-- `Array.from({length: k}, () => gfRandom(random))`. -/
def drawVector (st : EngineState) (k : Nat) : List Nat × EngineState :=
  (List.range k).foldl
    (fun acc _ =>
      let d := acc.2.draw
      (acc.1 ++ [gfRandom d.1], d.2))
    ([], st)

/-- The edge-lookup key `` `${source}->${target}` ``. -/
def edgeKey (source target : String) : String := source ++ "->" ++ target

/-- `lossCompensation = lossRate > 0 ? 1 / Math.max(1 - lossRate, 0.15) : 1`. -/
def lossCompensationOf (lossRate : ℚ) : ℚ :=
  if lossRate > 0 then 1 / max (1 - lossRate) 0.15 else 1

/-- `totalShards = Math.min(Math.ceil(k * redundancyFactor * lossCompensation), k * 6)`. -/
def totalShardsOf (k : Nat) (redundancyFactor lossRate : ℚ) : Int :=
  min ⌈(k : ℚ) * redundancyFactor * lossCompensationOf lossRate⌉ ((k : Int) * 6)

/-- `InitParams`. -/
structure InitParams where
  publisherNodeId : String
  nodes : List NodeInfo
  edges : List Edge
  k : Nat
  redundancyFactor : ℚ
  packetLoss : ℚ
  deriving DecidableEq

def pushEvent (st : EngineState) (e : SimEvent) : EngineState :=
  { st with eventQueue := st.eventQueue.push e }

def shardIndexStr : Option Nat → String
  | some n => toString n
  | none => "undefined"

/-- One shard of the initial RLNC burst: draw the coding vector once, then one
loss draw and one push per publisher neighbor that has an edge. -/
def seedRlncBurstShard (publisherId : String) (neighbors : List String) (k : Nat)
    (s : Nat) (st : EngineState) : EngineState :=
  let v := drawVector st k
  neighbors.foldl
    (fun st neighborId =>
      match alGet st.edgeLookup (edgeKey publisherId neighborId) with
      | none => st
      | some edge =>
        let d := st.draw
        let st := d.2
        pushEvent st
          { fireAt := edge.latencyMs + (s : ℚ) * 0.3, seq := 0, protocol := .rlnc,
            kind := .shard_arrive, fromNode := publisherId, toNode := neighborId,
            shardIndex := some s, codingVector := some v.1,
            dropped := decide (d.1 < st.simLossRate) })
    v.2

/-- The first GossipSub round: one message per publisher neighbor with an edge. -/
def seedGossipFirstRound (publisherId : String) (neighbors : List String)
    (st : EngineState) : EngineState :=
  neighbors.foldl
    (fun st neighborId =>
      match alGet st.edgeLookup (edgeKey publisherId neighborId) with
      | none => st
      | some edge =>
        let d := st.draw
        let st := d.2
        pushEvent st
          { fireAt := edge.latencyMs, seq := 0, protocol := .gossipsub,
            kind := .message_arrive, fromNode := publisherId, toNode := neighborId,
            dropped := decide (d.1 < st.simLossRate) })
    st

/-- GossipSub publisher retries: rounds `retry = 1..MAX_GOSSIP_RETRIES`. -/
def seedGossipRetries (publisherId : String) (neighbors : List String)
    (st : EngineState) : EngineState :=
  (List.range MAX_GOSSIP_RETRIES).foldl
    (fun st (r : Nat) =>
      let retry := r + 1
      neighbors.foldl
        (fun st neighborId =>
          match alGet st.edgeLookup (edgeKey publisherId neighborId) with
          | none => st
          | some edge =>
            let d := st.draw
            let st := d.2
            pushEvent st
              { fireAt := edge.latencyMs + (retry : ℚ) * GOSSIP_RETRY_INTERVAL, seq := 0,
                protocol := .gossipsub, kind := .message_arrive, fromNode := publisherId,
                toNode := neighborId, dropped := decide (d.1 < st.simLossRate) })
        st)
    st

/-- The publisher periodic resend rounds (both protocols). -/
def seedResendRounds (publisherId : String) (neighbors : List String) (k : Nat)
    (st : EngineState) : EngineState :=
  PUBLISHER_RESEND_TIMES.foldl
    (fun st (resendTime : Nat) =>
      let resendShards := (⌈(k : ℚ) * 1.5⌉).toNat
      let st := (List.range resendShards).foldl
        (fun st (s : Nat) =>
          let v := drawVector st k
          neighbors.foldl
            (fun st neighborId =>
              match alGet st.edgeLookup (edgeKey publisherId neighborId) with
              | none => st
              | some edge =>
                let d := st.draw
                let st := d.2
                pushEvent st
                  { fireAt := (resendTime : ℚ) + edge.latencyMs + (s : ℚ) * 0.3, seq := 0,
                    protocol := .rlnc, kind := .shard_arrive, fromNode := publisherId,
                    toNode := neighborId, shardIndex := some ((1000 + resendTime + s : Nat)),
                    codingVector := some v.1, dropped := decide (d.1 < st.simLossRate) })
            v.2)
        st
      neighbors.foldl
        (fun st neighborId =>
          match alGet st.edgeLookup (edgeKey publisherId neighborId) with
          | none => st
          | some edge =>
            let d := st.draw
            let st := d.2
            pushEvent st
              { fireAt := (resendTime : ℚ) + edge.latencyMs, seq := 0,
                protocol := .gossipsub, kind := .message_arrive, fromNode := publisherId,
                toNode := neighborId, dropped := decide (d.1 < st.simLossRate) })
        st)
    st

/-- `initPropagation(params)`: reset all engine state and seed initial events
for both protocols. -/
def initPropagation (st0 : EngineState) (params : InitParams) : EngineState :=
  let st : EngineState :=
    { eventQueue := st0.eventQueue.clear,
      rlncTrackers := params.nodes.foldl
        (fun m n =>
          if n.id == params.publisherNodeId then m
          else alSet m n.id (RankTracker.make params.k)) [],
      gossipReceived := sAdd [] params.publisherNodeId,
      gossipForwarded := sAdd [] params.publisherNodeId,
      gossipLastDuplicateSimTime := [],
      rlncLastRedundantSimTime := [],
      edgeLookup := params.edges.foldl
        (fun m e => alSet m (edgeKey e.source e.target) e) [],
      rlncNodeDeliveryTime := [],
      gossipNodeDeliveryTime := [],
      rlncRecodePushes := [],
      gossipRetries := [],
      metrics := emptyEngineMetrics,
      subscriberIds := params.nodes.foldl
        (fun acc n => if n.id == params.publisherNodeId then acc else acc ++ [n.id]) [],
      publisherId := some params.publisherNodeId,
      simK := params.k,
      simLossRate := params.packetLoss / 100,
      simNodes := params.nodes,
      rng := st0.rng,
      rngIdx := st0.rngIdx }
  match params.nodes.find? (fun n => n.id == params.publisherNodeId) with
  | none => st
  | some publisher =>
    let totalShards := (totalShardsOf params.k params.redundancyFactor st.simLossRate).toNat
    let st := (List.range totalShards).foldl
      (fun st s => seedRlncBurstShard params.publisherNodeId publisher.neighbors params.k s st)
      st
    let st := seedGossipFirstRound params.publisherNodeId publisher.neighbors st
    let st := seedGossipRetries params.publisherNodeId publisher.neighbors st
    seedResendRounds params.publisherNodeId publisher.neighbors params.k st

def bumpRlncTotal (st : EngineState) : EngineState :=
  { st with metrics := { st.metrics with rlnc :=
      { st.metrics.rlnc with totalTransmissions := st.metrics.rlnc.totalTransmissions + 1 } } }

def bumpRlncUseful (st : EngineState) : EngineState :=
  { st with metrics := { st.metrics with rlnc :=
      { st.metrics.rlnc with usefulTransmissions := st.metrics.rlnc.usefulTransmissions + 1 } } }

def bumpGossipTotal (st : EngineState) : EngineState :=
  { st with metrics := { st.metrics with gossipsub :=
      { st.metrics.gossipsub with totalTransmissions := st.metrics.gossipsub.totalTransmissions + 1 } } }

def bumpGossipUseful (st : EngineState) : EngineState :=
  { st with metrics := { st.metrics with gossipsub :=
      { st.metrics.gossipsub with usefulTransmissions := st.metrics.gossipsub.usefulTransmissions + 1 } } }

def bumpGossipDuplicates (st : EngineState) : EngineState :=
  { st with metrics := { st.metrics with gossipsub :=
      { st.metrics.gossipsub with duplicates := st.metrics.gossipsub.duplicates + 1 } } }

/-- One relay leg of `processRLNC`: the body of the neighbor loop. -/
def rlncRelayLeg (event : SimEvent) (lossRate : ℚ) (st : EngineState)
    (neighborId : String) : EngineState :=
  if neighborId == event.fromNode then st
  else if st.publisherId == some neighborId then st
  else if ((alGet st.rlncTrackers neighborId).map RankTracker.isFullRank).getD false then st
  else
    match alGet st.edgeLookup (edgeKey event.toNode neighborId) with
    | none => st
    | some neighborEdge =>
      (List.range 2).foldl
        (fun st (batch : Nat) =>
          let v := drawVector st st.simK
          let d := v.2.draw
          let st := d.2
          pushEvent st
            { fireAt := event.fireAt + neighborEdge.latencyMs + 0.5 + (batch : ℚ) * RLNC_PUSH_INTERVAL,
              seq := 0, protocol := .rlnc, kind := .shard_arrive, fromNode := event.toNode,
              toNode := neighborId, shardIndex := some ((event.shardIndex.getD 0 + batch * 100 : Nat)),
              codingVector := some v.1, dropped := decide (d.1 < lossRate) })
        st

/-- `processRLNC(event, lossRate, nodes, newParticles)`. -/
def processRLNC (st : EngineState) (event : SimEvent) (lossRate : ℚ)
    (nodes : List NodeInfo) : EngineState × List AnimatedParticle :=
  let st := bumpRlncTotal st
  let edge := alGet st.edgeLookup (edgeKey event.fromNode event.toNode)
  let visualDuration := max ((match edge with | some e => e.latencyMs | none => 30) * 10) 500
  let tracker := alGet st.rlncTrackers event.toNode
  let isRedundant := !event.dropped && (tracker.map RankTracker.isFullRank).getD false
  let particle : AnimatedParticle :=
    { id := "rlnc-" ++ event.fromNode ++ "-" ++ event.toNode ++ "-" ++
        shardIndexStr event.shardIndex ++ "-" ++ toString event.fireAt,
      protocol := .rlnc, fromNode := event.fromNode, toNode := event.toNode,
      progress := 0, duration := visualDuration, startTime := event.fireAt,
      shardIndex := event.shardIndex, dropped := event.dropped, isRedundant := isRedundant }
  if event.dropped then (st, [particle])
  else
    match tracker with
    | none => (st, [particle])
    | some tr =>
      if tr.isFullRank then
        let st := { st with rlncLastRedundantSimTime := alSet st.rlncLastRedundantSimTime event.toNode event.fireAt }
        (st, [particle])
      else
        let res := tr.addRow (event.codingVector.getD [])
        let st := { st with rlncTrackers := alSet st.rlncTrackers event.toNode res.1 }
        let st := if res.2 then bumpRlncUseful st else st
        let st :=
          if res.1.isFullRank && (alGet st.rlncNodeDeliveryTime event.toNode).isNone then
            { st with
              rlncNodeDeliveryTime := alSet st.rlncNodeDeliveryTime event.toNode event.fireAt,
              metrics := { st.metrics with rlnc :=
                { st.metrics.rlnc with deliveredNodes :=
                    st.metrics.rlnc.deliveredNodes ++ [event.toNode] } } }
          else st
        match nodes.find? (fun n => n.id == event.toNode) with
        | none => (st, [particle])
        | some node =>
          let pushCount := (alGet st.rlncRecodePushes event.toNode).getD 0
          if MAX_RLNC_PUSHES_PER_NODE ≤ pushCount then (st, [particle])
          else
            let st := { st with rlncRecodePushes := alSet st.rlncRecodePushes event.toNode (pushCount + 1) }
            (node.neighbors.foldl (rlncRelayLeg event lossRate) st, [particle])

/-- One leg of the gossip store-and-forward loop. -/
def gossipForwardLeg (event : SimEvent) (lossRate storeForwardDelay : ℚ)
    (st : EngineState) (neighborId : String) : EngineState :=
  if neighborId == event.fromNode then st
  else
    match alGet st.edgeLookup (edgeKey event.toNode neighborId) with
    | none => st
    | some neighborEdge =>
      let d := st.draw
      let st := d.2
      pushEvent st
        { fireAt := event.fireAt + neighborEdge.latencyMs + storeForwardDelay,
          seq := 0, protocol := .gossipsub, kind := .message_arrive,
          fromNode := event.toNode, toNode := neighborId,
          dropped := decide (d.1 < lossRate) }

/-- One leg of the gossip heartbeat-retry loop (no sender exclusion). -/
def gossipRetryLeg (event : SimEvent) (lossRate storeForwardDelay : ℚ)
    (st : EngineState) (neighborId : String) : EngineState :=
  match alGet st.edgeLookup (edgeKey event.toNode neighborId) with
  | none => st
  | some neighborEdge =>
    let d := st.draw
    let st := d.2
    pushEvent st
      { fireAt := event.fireAt + GOSSIP_RETRY_INTERVAL + neighborEdge.latencyMs + storeForwardDelay,
        seq := 0, protocol := .gossipsub, kind := .message_arrive,
        fromNode := event.toNode, toNode := neighborId,
        dropped := decide (d.1 < lossRate) }

/-- `processGossip(event, lossRate, nodes, newParticles)`. -/
def processGossip (st : EngineState) (event : SimEvent) (lossRate : ℚ)
    (nodes : List NodeInfo) : EngineState × List AnimatedParticle :=
  let st := bumpGossipTotal st
  let edge := alGet st.edgeLookup (edgeKey event.fromNode event.toNode)
  let gVisualDuration := max ((match edge with | some e => e.latencyMs | none => 30) * 10) 500
  let gIsRedundant := !event.dropped && decide (event.toNode ∈ st.gossipReceived)
  let particle : AnimatedParticle :=
    { id := "gossip-" ++ event.fromNode ++ "-" ++ event.toNode ++ "-" ++ toString event.fireAt,
      protocol := .gossipsub, fromNode := event.fromNode, toNode := event.toNode,
      progress := 0, duration := gVisualDuration, startTime := event.fireAt,
      dropped := event.dropped, isRedundant := gIsRedundant }
  if event.dropped then (st, [particle])
  else if event.toNode ∈ st.gossipReceived then
    let st := bumpGossipDuplicates st
    let st := { st with gossipLastDuplicateSimTime := alSet st.gossipLastDuplicateSimTime event.toNode event.fireAt }
    (st, [particle])
  else
    let st := bumpGossipUseful st
    let st := { st with
      gossipReceived := sAdd st.gossipReceived event.toNode,
      gossipNodeDeliveryTime := alSet st.gossipNodeDeliveryTime event.toNode event.fireAt,
      metrics := { st.metrics with gossipsub :=
        { st.metrics.gossipsub with deliveredNodes :=
            st.metrics.gossipsub.deliveredNodes ++ [event.toNode] } } }
    if event.toNode ∈ st.gossipForwarded then (st, [particle])
    else
      let st := { st with gossipForwarded := sAdd st.gossipForwarded event.toNode }
      match nodes.find? (fun n => n.id == event.toNode) with
      | none => (st, [particle])
      | some node =>
        let storeForwardDelay : ℚ := (st.simK : ℚ) * 1.5 + 1
        let st := node.neighbors.foldl (gossipForwardLeg event lossRate storeForwardDelay) st
        let retryCount := (alGet st.gossipRetries event.toNode).getD 0
        if retryCount < MAX_GOSSIP_RETRIES then
          let st := { st with gossipRetries := alSet st.gossipRetries event.toNode (retryCount + 1) }
          let st := node.neighbors.foldl (gossipRetryLeg event lossRate storeForwardDelay) st
          (st, [particle])
        else (st, [particle])

/-- One pop-and-process step, if the next event is due. Returns the popped
event (for stating which events were processed), the new state, and the
particles created. -/
def engineStep (st : EngineState) (simTimeMs lossRate : ℚ) (nodes : List NodeInfo) :
    Option (SimEvent × EngineState × List AnimatedParticle) :=
  match st.eventQueue.peek with
  | none => none
  | some e =>
    if e.fireAt ≤ simTimeMs then
      match st.eventQueue.pop with
      | (none, _) => none
      | (some event, q') =>
        let st := { st with eventQueue := q' }
        some (event, if event.protocol = .rlnc then processRLNC st event lossRate nodes
                     else processGossip st event lossRate nodes)
    else none

/-- The `while` loop of `advanceTo`, with explicit fuel: final state, particles
in creation order, and the processed events in processing order. -/
def drainLoop : Nat → EngineState → ℚ → ℚ → List NodeInfo →
    EngineState × List AnimatedParticle × List SimEvent
  | 0, st, _, _, _ => (st, [], [])
  | fuel + 1, st, simTimeMs, lossRate, nodes =>
    match engineStep st simTimeMs lossRate nodes with
    | none => (st, [], [])
    | some (e, st', ps) =>
      let r := drainLoop fuel st' simTimeMs lossRate nodes
      (r.1, ps ++ r.2.1, e :: r.2.2)

/-- JS `Math.round`: `floor(x + 1/2)`. -/
def jsRound (x : ℚ) : ℚ := (⌊x + 1 / 2⌋ : ℤ)

/-- The completion recomputation at the end of `advanceTo`. -/
def recomputeCompletion (st : EngineState) : EngineState :=
  let rlncAllDone := !st.subscriberIds.isEmpty &&
    st.subscriberIds.all (fun id => ((alGet st.rlncTrackers id).map RankTracker.isFullRank).getD false)
  let gossipAllDone := !st.subscriberIds.isEmpty &&
    st.subscriberIds.all (fun id => decide (id ∈ st.gossipReceived))
  let rlncLast :=
    if st.rlncNodeDeliveryTime.isEmpty then st.metrics.rlnc.lastDeliverySimMs
    else some (jsRound ((st.rlncNodeDeliveryTime.foldl
        (fun m p => if p.2 > m then p.2 else m) 0) * 10) / 10)
  let gossipLast :=
    if st.gossipNodeDeliveryTime.isEmpty then st.metrics.gossipsub.lastDeliverySimMs
    else some (jsRound ((st.gossipNodeDeliveryTime.foldl
        (fun m p => if p.2 > m then p.2 else m) 0) * 10) / 10)
  let newRlnc := { st.metrics.rlnc with allDone := rlncAllDone, lastDeliverySimMs := rlncLast }
  let newGossip := { st.metrics.gossipsub with allDone := gossipAllDone, lastDeliverySimMs := gossipLast }
  { st with metrics := { rlnc := newRlnc, gossipsub := newGossip } }

/-- `advanceTo(simTimeMs, packetLoss, nodes)`: drain due events, recompute
completion, and return the state plus the particle list and the metrics
snapshot. -/
def advanceTo (fuel : Nat) (st : EngineState) (simTimeMs packetLoss : ℚ)
    (nodes : List NodeInfo) : EngineState × List AnimatedParticle × EngineMetrics :=
  let lossRate := packetLoss / 100
  let r := drainLoop fuel st simTimeMs lossRate nodes
  let st := recomputeCompletion r.1
  (st, r.2.1, st.metrics)

/-- `hasRemainingEvents()`. -/
def hasRemainingEvents (st : EngineState) : Bool := !st.eventQueue.heap.isEmpty

/-- `nextEventTime()`. -/
def nextEventTime (st : EngineState) : Option ℚ := st.eventQueue.peek.map (fun e => e.fireAt)

/-- `getRLNCRank(nodeId)`. -/
def getRLNCRank (st : EngineState) (nodeId : String) : Nat :=
  ((alGet st.rlncTrackers nodeId).map (fun t => t.rank)).getD 0

/-- `isRLNCReconstructed(nodeId)`. -/
def isRLNCReconstructed (st : EngineState) (nodeId : String) : Bool :=
  ((alGet st.rlncTrackers nodeId).map RankTracker.isFullRank).getD false

/-- `hasGossipMessage(nodeId)`. -/
def hasGossipMessage (st : EngineState) (nodeId : String) : Bool :=
  decide (nodeId ∈ st.gossipReceived)

/-- `getEngineMetrics()`. -/
def getEngineMetrics (st : EngineState) : EngineMetrics := st.metrics

/-- Run a full script: `initPropagation` then a sequence of `advanceTo` calls,
collecting the returned metrics snapshots. -/
def runScript (rng : Nat → ℚ) (params : InitParams)
    (calls : List (ℚ × ℚ × List NodeInfo)) (fuel : Nat) :
    EngineState × List EngineMetrics :=
  calls.foldl
    (fun acc c =>
      let r := advanceTo fuel acc.1 c.1 c.2.1 c.2.2
      (r.1, acc.2 ++ [r.2.2]))
    (initPropagation (EngineState.fresh rng) params, [])

/-- A deterministic stand-in stream for concrete runs. -/
def zeroRng : Nat → ℚ := fun _ => 0

/-- A run whose only node is the publisher (no non-publisher nodes at all). -/
def soloParams : InitParams :=
  { publisherNodeId := "pub", nodes := [⟨"pub", []⟩], edges := [], k := 2,
    redundancyFactor := 1, packetLoss := 0 }

def soloState : EngineState := initPropagation (EngineState.fresh zeroRng) soloParams

/-- A two-node run used to ground the shard-count formula in the engine. -/
def pairParams : InitParams :=
  { publisherNodeId := "p", nodes := [⟨"p", ["q"]⟩, ⟨"q", ["p"]⟩],
    edges := [⟨"e", "p", "q", 10, 0⟩], k := 4, redundancyFactor := 133 / 100,
    packetLoss := 50 }

/-- `clearEngine()`. -/
def clearEngine (st : EngineState) : EngineState :=
  { st with
    eventQueue := st.eventQueue.clear
    rlncTrackers := []
    gossipReceived := []
    gossipForwarded := []
    rlncNodeDeliveryTime := []
    gossipNodeDeliveryTime := []
    rlncRecodePushes := []
    gossipRetries := []
    gossipLastDuplicateSimTime := []
    rlncLastRedundantSimTime := []
    metrics := emptyEngineMetrics
    subscriberIds := []
    publisherId := none
    simNodes := [] }

/-- C5 fails on the code in the zero-non-publisher case: on a run whose node
list contains only the publisher, every non-publisher node trivially satisfies
the full-rank (resp. received) condition, yet `advanceTo` reports
`allDone = false` for both protocols, because the code additionally requires
`subscriberIds.length > 0`. -/
theorem C5_counterexample :
    (advanceTo 10 soloState 1000 0 soloParams.nodes).2.2.rlnc.allDone = false ∧
    (advanceTo 10 soloState 1000 0 soloParams.nodes).2.2.gossipsub.allDone = false ∧
    (∀ n ∈ soloParams.nodes, n.id ≠ soloParams.publisherNodeId →
      isRLNCReconstructed (advanceTo 10 soloState 1000 0 soloParams.nodes).1 n.id = true) ∧
    (∀ n ∈ soloParams.nodes, n.id ≠ soloParams.publisherNodeId →
      hasGossipMessage (advanceTo 10 soloState 1000 0 soloParams.nodes).1 n.id = true) := by
  refine ⟨by with_unfolding_all decide, by with_unfolding_all decide, ?_, ?_⟩ <;>
    · intro n hn hne
      exfalso
      simp only [soloParams, List.mem_singleton] at hn
      subst hn
      exact hne rfl

/-- C5, amended: after every `advanceTo`, `metrics.rlnc.allDone` is true iff
the subscriber list recorded at `initPropagation` is nonempty and every
subscriber is full rank; likewise `metrics.gossipsub.allDone` with the
received set. (With zero non-publisher nodes, `allDone` is `false`.) -/
theorem C5_allDone_iff (fuel : Nat) (st : EngineState) (t pl : ℚ) (nodes : List NodeInfo) :
    ((advanceTo fuel st t pl nodes).2.2.rlnc.allDone = true ↔
      ((advanceTo fuel st t pl nodes).1.subscriberIds ≠ [] ∧
        ∀ id ∈ (advanceTo fuel st t pl nodes).1.subscriberIds,
          isRLNCReconstructed (advanceTo fuel st t pl nodes).1 id = true)) ∧
    ((advanceTo fuel st t pl nodes).2.2.gossipsub.allDone = true ↔
      ((advanceTo fuel st t pl nodes).1.subscriberIds ≠ [] ∧
        ∀ id ∈ (advanceTo fuel st t pl nodes).1.subscriberIds,
          hasGossipMessage (advanceTo fuel st t pl nodes).1 id = true)) := by
  simp only [advanceTo, recomputeCompletion, isRLNCReconstructed, hasGossipMessage,
    Bool.and_eq_true, List.all_eq_true, Bool.not_eq_true]
  constructor <;>
    · constructor
      · intro h
        refine ⟨fun he => by simp [he] at h, fun id hid => ?_⟩
        have := h.2 id hid
        simpa using this
      · intro h
        refine ⟨?_, fun id hid => by simpa using h.2 id hid⟩
        have : ¬ (drainLoop fuel st t (pl / 100) nodes).1.subscriberIds.isEmpty := by
          simpa [List.isEmpty_iff] using h.1
        simpa using this

/-- C7: the initial RLNC shard count follows the claimed formula
`min(ceil(k * redundancyFactor * lossCompensation), k * CAP_MULTIPLIER)` with
`lossCompensation = 1/max(1 - lossRate, 0.15)` for `lossRate > 0` and `1`
otherwise, where `lossRate = packetLoss / 100`; on the concrete two-node run
(`packetLoss = 50`, `k = 4`, `redundancyFactor = 1.33`) the publisher indeed
seeds exactly that many initial burst shards. -/
theorem C7_initial_shard_count :
    (∀ (k : Nat) (redundancyFactor packetLoss : ℚ),
      totalShardsOf k redundancyFactor (packetLoss / 100) =
        min ⌈(k : ℚ) * redundancyFactor *
          (if 0 < packetLoss / 100 then 1 / max (1 - packetLoss / 100) 0.15 else 1)⌉
          ((k : Int) * 6)) ∧
    ((initPropagation (EngineState.fresh zeroRng) pairParams).eventQueue.heap.filter
        (fun e => e.kind == EventKind.shard_arrive && decide (e.shardIndex.getD 0 < 1000))).length =
      (totalShardsOf pairParams.k pairParams.redundancyFactor (pairParams.packetLoss / 100)).toNat := by
  constructor
  · intro k rf pl
    rfl
  · with_unfolding_all decide

/-- C9: two engine runs with identical PRNG stream, identical parameters
(topology, publisher, k, redundancy factor, packet loss) and identical
`advanceTo` call sequences produce identical metrics snapshots and identical
per-node delivery times. -/
theorem C9_determinism (rng1 rng2 : Nat → ℚ) (p1 p2 : InitParams)
    (c1 c2 : List (ℚ × ℚ × List NodeInfo)) (fuel : Nat)
    (hr : rng1 = rng2) (hp : p1 = p2) (hc : c1 = c2) :
    (runScript rng1 p1 c1 fuel).2 = (runScript rng2 p2 c2 fuel).2 ∧
    (∀ nodeId, alGet (runScript rng1 p1 c1 fuel).1.rlncNodeDeliveryTime nodeId =
        alGet (runScript rng2 p2 c2 fuel).1.rlncNodeDeliveryTime nodeId) ∧
    (∀ nodeId, alGet (runScript rng1 p1 c1 fuel).1.gossipNodeDeliveryTime nodeId =
        alGet (runScript rng2 p2 c2 fuel).1.gossipNodeDeliveryTime nodeId) := by
  subst hr hp hc
  exact ⟨rfl, fun _ => rfl, fun _ => rfl⟩

/-- Witness for C9 at a concrete run. -/
theorem C9_determinism_witness :
    (runScript zeroRng soloParams [(100, 0, soloParams.nodes)] 10).2 =
      (runScript zeroRng soloParams [(100, 0, soloParams.nodes)] 10).2 ∧
    (∀ nodeId,
      alGet (runScript zeroRng soloParams [(100, 0, soloParams.nodes)] 10).1.rlncNodeDeliveryTime nodeId =
        alGet (runScript zeroRng soloParams [(100, 0, soloParams.nodes)] 10).1.rlncNodeDeliveryTime nodeId) ∧
    (∀ nodeId,
      alGet (runScript zeroRng soloParams [(100, 0, soloParams.nodes)] 10).1.gossipNodeDeliveryTime nodeId =
        alGet (runScript zeroRng soloParams [(100, 0, soloParams.nodes)] 10).1.gossipNodeDeliveryTime nodeId) :=
  C9_determinism zeroRng zeroRng soloParams soloParams
    [(100, 0, soloParams.nodes)] [(100, 0, soloParams.nodes)] 10 rfl rfl rfl

/-! ### C10: queries on ids without a tracker -/

theorem foldl_preserve_mem {α β : Type} (P : β → Prop) (f : β → α → β) (l : List α) (b : β)
    (hstep : ∀ b a, a ∈ l → P b → P (f b a)) (hb : P b) : P (l.foldl f b) := by
  induction l generalizing b with
  | nil => exact hb
  | cons x xs ih =>
    exact ih (f b x) (fun b a ha hP => hstep b a (List.mem_cons_of_mem _ ha) hP)
      (hstep b x (List.mem_cons_self _ _) hb)

theorem find?_upd_map {α : Type} (m : List (String × α)) (k k' : String) (v : α)
    (h : k ≠ k') :
    (m.map (fun p => if p.1 == k then (k, v) else p)).find? (fun p => p.1 == k') =
      m.find? (fun p => p.1 == k') := by
  induction m with
  | nil => rfl
  | cons p rest ih =>
    by_cases hp : p.1 = k
    · have h1 : (if (p.1 == k) = true then (k, v) else p) = (k, v) := by simp [hp]
      have hc1 : ((k, v).1 == k') = false := by simpa using h
      have hc2 : (p.1 == k') = false := by
        rw [hp]
        simpa using h
      rw [List.map_cons, h1]
      simp only [List.find?_cons, hc1, hc2]
      exact ih
    · have h1 : (if (p.1 == k) = true then (k, v) else p) = p := by simp [hp]
      rw [List.map_cons, h1]
      by_cases hk : p.1 = k'
      · have hc : (p.1 == k') = true := by simpa using hk
        simp only [List.find?_cons, hc]
      · have hc : (p.1 == k') = false := by simpa using hk
        simp only [List.find?_cons, hc]
        exact ih

theorem find?_append_single {α : Type} (m : List (String × α)) (k k' : String) (v : α)
    (h : k ≠ k') :
    (m ++ [(k, v)]).find? (fun p => p.1 == k') = m.find? (fun p => p.1 == k') := by
  induction m with
  | nil =>
    have hc : ((k, v).1 == k') = false := by simpa using h
    simp only [List.nil_append, List.find?_cons, hc]
  | cons p rest ih =>
    by_cases hk : p.1 = k'
    · have hc : (p.1 == k') = true := by simpa using hk
      simp only [List.cons_append, List.find?_cons, hc]
    · have hc : (p.1 == k') = false := by simpa using hk
      simp only [List.cons_append, List.find?_cons, hc]
      exact ih

/-- `Map.set` at key `k` does not affect lookups of a different key. -/
theorem alGet_alSet_ne {α : Type} (m : List (String × α)) (k k' : String) (v : α)
    (h : k ≠ k') : alGet (alSet m k v) k' = alGet m k' := by
  unfold alSet alGet
  by_cases hany : m.any (fun p => p.1 == k)
  · rw [if_pos hany, find?_upd_map m k k' v h]
  · rw [if_neg hany, find?_append_single m k k' v h]

theorem drawVector_trackers (st : EngineState) (k : Nat) :
    (drawVector st k).2.rlncTrackers = st.rlncTrackers := by
  unfold drawVector
  exact foldl_preserve_mem
    (fun (acc : List Nat × EngineState) => acc.2.rlncTrackers = st.rlncTrackers) _ _ _
    (fun b a _ hP => hP) rfl

theorem seedRlncBurstShard_trackers (pid : String) (nb : List String) (k s : Nat)
    (st : EngineState) :
    (seedRlncBurstShard pid nb k s st).rlncTrackers = st.rlncTrackers := by
  unfold seedRlncBurstShard
  refine foldl_preserve_mem
    (fun (x : EngineState) => x.rlncTrackers = st.rlncTrackers) _ _ _
    (fun b a _ hP => ?_) (drawVector_trackers st k)
  dsimp only
  cases alGet b.edgeLookup (edgeKey pid a) <;> simpa

theorem seedGossipFirstRound_trackers (pid : String) (nb : List String) (st : EngineState) :
    (seedGossipFirstRound pid nb st).rlncTrackers = st.rlncTrackers := by
  unfold seedGossipFirstRound
  refine foldl_preserve_mem
    (fun (x : EngineState) => x.rlncTrackers = st.rlncTrackers) _ _ _
    (fun b a _ hP => ?_) rfl
  dsimp only
  cases alGet b.edgeLookup (edgeKey pid a) <;> simpa

theorem seedGossipRetries_trackers (pid : String) (nb : List String) (st : EngineState) :
    (seedGossipRetries pid nb st).rlncTrackers = st.rlncTrackers := by
  unfold seedGossipRetries
  refine foldl_preserve_mem
    (fun (x : EngineState) => x.rlncTrackers = st.rlncTrackers) _ _ _
    (fun b r _ hP => ?_) rfl
  dsimp only
  refine foldl_preserve_mem
    (fun (x : EngineState) => x.rlncTrackers = st.rlncTrackers) _ _ _
    (fun b2 a _ hP2 => ?_) hP
  dsimp only
  cases alGet b2.edgeLookup (edgeKey pid a) <;> simpa

theorem seedResendRounds_trackers (pid : String) (nb : List String) (k : Nat)
    (st : EngineState) :
    (seedResendRounds pid nb k st).rlncTrackers = st.rlncTrackers := by
  unfold seedResendRounds
  refine foldl_preserve_mem
    (fun (x : EngineState) => x.rlncTrackers = st.rlncTrackers) _ _ _
    (fun b rt _ hP => ?_) rfl
  dsimp only
  refine foldl_preserve_mem
    (fun (x : EngineState) => x.rlncTrackers = st.rlncTrackers) _ _ _
    (fun b2 a _ hP2 => ?_) ?_
  · dsimp only
    cases alGet b2.edgeLookup (edgeKey pid a) <;> simpa
  · refine foldl_preserve_mem
      (fun (x : EngineState) => x.rlncTrackers = st.rlncTrackers) _ _ _
      (fun b3 s _ hP3 => ?_) hP
    dsimp only
    refine foldl_preserve_mem
      (fun (x : EngineState) => x.rlncTrackers = st.rlncTrackers) _ _ _
      (fun b4 a _ hP4 => ?_) ?_
    · dsimp only
      cases alGet b4.edgeLookup (edgeKey pid a) <;> simpa
    · dsimp only
      show (drawVector b3 k).2.rlncTrackers = st.rlncTrackers
      rw [drawVector_trackers]
      exact hP3

/-- After `initPropagation`, the publisher and any id outside the supplied
node list have no tracker. -/
theorem initPropagation_trackers_none (st0 : EngineState) (p : InitParams) (nodeId : String)
    (h : nodeId = p.publisherNodeId ∨ ∀ n ∈ p.nodes, n.id ≠ nodeId) :
    alGet (initPropagation st0 p).rlncTrackers nodeId = none := by
  have hbase : alGet (p.nodes.foldl
      (fun m n => if n.id == p.publisherNodeId then m
                  else alSet m n.id (RankTracker.make p.k)) []) nodeId = none := by
    refine foldl_preserve_mem
      (fun (m : List (String × RankTracker)) => alGet m nodeId = none) _ _ _
      (fun m n hn hP => ?_) rfl
    dsimp only
    by_cases hid : (n.id == p.publisherNodeId) = true
    · rwa [if_pos hid]
    · rw [if_neg hid]
      have hne : n.id ≠ nodeId := by
        rcases h with h | h
        · intro hc
          exact hid (by simp [hc, h])
        · exact h n hn
      rw [alGet_alSet_ne _ _ _ _ hne]
      exact hP
  unfold initPropagation
  cases p.nodes.find? (fun n => n.id == p.publisherNodeId) with
  | none => exact hbase
  | some publisher =>
    rw [seedResendRounds_trackers, seedGossipRetries_trackers, seedGossipFirstRound_trackers]
    refine foldl_preserve_mem
      (fun (x : EngineState) => alGet x.rlncTrackers nodeId = none) _ _ _
      (fun b s _ hP => ?_) hbase
    dsimp only
    rw [seedRlncBurstShard_trackers]
    exact hP

theorem rlncRelayLeg_trackers (e : SimEvent) (lr : ℚ) (st : EngineState) (nid : String) :
    (rlncRelayLeg e lr st nid).rlncTrackers = st.rlncTrackers := by
  unfold rlncRelayLeg
  by_cases h1 : (nid == e.fromNode) = true
  · rw [if_pos h1]
  · rw [if_neg h1]
    by_cases h2 : (st.publisherId == some nid) = true
    · rw [if_pos h2]
    · rw [if_neg h2]
      by_cases h3 : ((alGet st.rlncTrackers nid).map RankTracker.isFullRank).getD false = true
      · rw [if_pos h3]
      · rw [if_neg h3]
        cases alGet st.edgeLookup (edgeKey e.toNode nid) with
        | none => rfl
        | some ne' =>
          refine foldl_preserve_mem
            (fun (x : EngineState) => x.rlncTrackers = st.rlncTrackers) _ _ _
            (fun b a _ hP => ?_) rfl
          dsimp only
          show (drawVector b b.simK).2.rlncTrackers = st.rlncTrackers
          rw [drawVector_trackers]
          exact hP

theorem processRLNC_trackers_none (st : EngineState) (e : SimEvent) (lr : ℚ)
    (ns : List NodeInfo) (nodeId : String) (h : alGet st.rlncTrackers nodeId = none) :
    alGet (processRLNC st e lr ns).1.rlncTrackers nodeId = none := by
  have hb : alGet (bumpRlncTotal st).rlncTrackers nodeId = none := h
  simp only [processRLNC]
  by_cases hd : e.dropped = true
  · simpa [hd] using hb
  · simp only [hd, Bool.false_eq_true, if_false]
    cases htr : alGet (bumpRlncTotal st).rlncTrackers e.toNode with
    | none => exact hb
    | some tr =>
      have hne : e.toNode ≠ nodeId := by
        intro hc
        rw [hc, hb] at htr
        exact Option.noConfusion htr
      by_cases hfull : tr.isFullRank = true
      · simpa [hfull] using hb
      · simp only [hfull, Bool.false_eq_true, if_false]
        have hset : alGet (alSet (bumpRlncTotal st).rlncTrackers e.toNode
            (tr.addRow (e.codingVector.getD [])).1) nodeId = none := by
          rw [alGet_alSet_ne _ _ _ _ hne]
          exact hb
        have hfold : ∀ (node : NodeInfo) (x : EngineState),
            alGet x.rlncTrackers nodeId = none →
            alGet (node.neighbors.foldl (rlncRelayLeg e lr) x).rlncTrackers nodeId = none := by
          intro node x hx
          refine foldl_preserve_mem
            (fun (y : EngineState) => alGet y.rlncTrackers nodeId = none) _ _ _
            (fun b a _ hP => ?_) hx
          dsimp only
          rw [rlncRelayLeg_trackers]
          exact hP
        repeat' split
        all_goals first
          | exact hset
          | exact hfold _ _ hset

theorem gossipForwardLeg_trackers (e : SimEvent) (lr d : ℚ) (st : EngineState)
    (nid : String) : (gossipForwardLeg e lr d st nid).rlncTrackers = st.rlncTrackers := by
  unfold gossipForwardLeg
  by_cases h1 : (nid == e.fromNode) = true
  · rw [if_pos h1]
  · rw [if_neg h1]
    cases alGet st.edgeLookup (edgeKey e.toNode nid) <;> rfl

theorem gossipRetryLeg_trackers (e : SimEvent) (lr d : ℚ) (st : EngineState)
    (nid : String) : (gossipRetryLeg e lr d st nid).rlncTrackers = st.rlncTrackers := by
  unfold gossipRetryLeg
  cases alGet st.edgeLookup (edgeKey e.toNode nid) <;> rfl

theorem processGossip_trackers (st : EngineState) (e : SimEvent) (lr : ℚ)
    (ns : List NodeInfo) : (processGossip st e lr ns).1.rlncTrackers = st.rlncTrackers := by
  have hfwd : ∀ (node : NodeInfo) (d : ℚ) (x : EngineState),
      (node.neighbors.foldl (gossipForwardLeg e lr d) x).rlncTrackers = x.rlncTrackers := by
    intro node d x
    refine foldl_preserve_mem
      (fun (y : EngineState) => y.rlncTrackers = x.rlncTrackers) _ _ _
      (fun b a _ hP => ?_) rfl
    dsimp only
    rw [gossipForwardLeg_trackers]
    exact hP
  have hret : ∀ (node : NodeInfo) (d : ℚ) (x : EngineState),
      (node.neighbors.foldl (gossipRetryLeg e lr d) x).rlncTrackers = x.rlncTrackers := by
    intro node d x
    refine foldl_preserve_mem
      (fun (y : EngineState) => y.rlncTrackers = x.rlncTrackers) _ _ _
      (fun b a _ hP => ?_) rfl
    dsimp only
    rw [gossipRetryLeg_trackers]
    exact hP
  simp only [processGossip]
  repeat' split
  all_goals simp only [hret, hfwd]
  all_goals rfl

theorem engineStep_trackers_none {st : EngineState} {t lr : ℚ} {ns : List NodeInfo}
    {nodeId : String} {e : SimEvent} {st' : EngineState} {ps : List AnimatedParticle}
    (hstep : engineStep st t lr ns = some (e, st', ps))
    (h : alGet st.rlncTrackers nodeId = none) :
    alGet st'.rlncTrackers nodeId = none := by
  unfold engineStep at hstep
  cases hpk : st.eventQueue.peek with
  | none =>
    rw [hpk] at hstep
    exact Option.noConfusion hstep
  | some pk =>
    rw [hpk] at hstep
    dsimp only at hstep
    by_cases hle : pk.fireAt ≤ t
    · rw [if_pos hle] at hstep
      cases hpop : st.eventQueue.pop with
      | mk oe q' =>
        cases oe with
        | none =>
          rw [hpop] at hstep
          dsimp only at hstep
          exact Option.noConfusion hstep
        | some event =>
          rw [hpop] at hstep
          dsimp only at hstep
          have hq : alGet ({ st with eventQueue := q' } : EngineState).rlncTrackers nodeId = none := h
          injection hstep with hstep
          injection hstep with h1 h2
          have hst' : (if event.protocol = Protocol.rlnc
              then processRLNC { st with eventQueue := q' } event lr ns
              else processGossip { st with eventQueue := q' } event lr ns).1 = st' := by
            rw [h2]
          rw [← hst']
          by_cases hproto : event.protocol = Protocol.rlnc
          · rw [if_pos hproto]
            exact processRLNC_trackers_none _ _ _ _ _ hq
          · rw [if_neg hproto]
            rw [processGossip_trackers]
            exact hq
    · rw [if_neg hle] at hstep
      exact Option.noConfusion hstep

theorem drainLoop_trackers_none (fuel : Nat) {st : EngineState} {t lr : ℚ}
    {ns : List NodeInfo} {nodeId : String} (h : alGet st.rlncTrackers nodeId = none) :
    alGet (drainLoop fuel st t lr ns).1.rlncTrackers nodeId = none := by
  induction fuel generalizing st with
  | zero => exact h
  | succ n ih =>
    unfold drainLoop
    cases hstep : engineStep st t lr ns with
    | none => exact h
    | some r =>
      cases r with
      | mk e r2 =>
        cases r2 with
        | mk st' ps => exact ih (engineStep_trackers_none hstep h)

/-- C10: ids with no rank tracker — the publisher's own id or any id not among
the nodes supplied at `initPropagation` — make the query functions return the
defaults rather than fail: `getRLNCRank` is 0 and `isRLNCReconstructed` is
false, both after `initPropagation` and after any later `advanceTo`; the
queries are pure reads of the state. -/
theorem C10_missing_tracker_queries :
    (∀ (st : EngineState) (nodeId : String), alGet st.rlncTrackers nodeId = none →
      getRLNCRank st nodeId = 0 ∧ isRLNCReconstructed st nodeId = false) ∧
    (∀ (st0 : EngineState) (p : InitParams) (nodeId : String),
      (nodeId = p.publisherNodeId ∨ ∀ n ∈ p.nodes, n.id ≠ nodeId) →
      alGet (initPropagation st0 p).rlncTrackers nodeId = none) ∧
    (∀ (fuel : Nat) (st : EngineState) (t pl : ℚ) (nodes : List NodeInfo) (nodeId : String),
      alGet st.rlncTrackers nodeId = none →
      alGet (advanceTo fuel st t pl nodes).1.rlncTrackers nodeId = none) := by
  refine ⟨fun st nodeId h => ?_, initPropagation_trackers_none, fun fuel st t pl nodes nodeId h => ?_⟩
  · unfold getRLNCRank isRLNCReconstructed
    rw [h]
    exact ⟨rfl, rfl⟩
  · unfold advanceTo
    exact drainLoop_trackers_none fuel h

/-- Witness for C10 on the solo run and the publisher's own id. -/
theorem C10_missing_tracker_queries_witness :
    getRLNCRank soloState "pub" = 0 ∧
    isRLNCReconstructed soloState "pub" = false ∧
    alGet (advanceTo 10 soloState 1000 0 soloParams.nodes).1.rlncTrackers "pub" = none := by
  have hnone : alGet soloState.rlncTrackers "pub" = none :=
    C10_missing_tracker_queries.2.1 (EngineState.fresh zeroRng) soloParams "pub" (Or.inl rfl)
  have hq := C10_missing_tracker_queries.1 soloState "pub" hnone
  exact ⟨hq.1, hq.2, C10_missing_tracker_queries.2.2 10 soloState 1000 0 soloParams.nodes "pub" hnone⟩

/-! ### Heap correctness (C4) -/

theorem nth_eq_getElem {l : List SimEvent} {i : Nat} (h : i < l.length) :
    nth l i = l[i] := by
  unfold nth
  rw [List.getD_eq_getElem?_getD, List.getElem?_eq_getElem h]
  rfl

theorem nth_set_self {l : List SimEvent} {i : Nat} {a : SimEvent} (h : i < l.length) :
    nth (l.set i a) i = a := by
  unfold nth
  rw [List.getD_eq_getElem?_getD, List.getElem?_set_self h]
  rfl

theorem nth_set_ne {l : List SimEvent} {i j : Nat} {a : SimEvent} (h : i ≠ j) :
    nth (l.set i a) j = nth l j := by
  unfold nth
  rw [List.getD_eq_getElem?_getD, List.getD_eq_getElem?_getD, List.getElem?_set_ne h]

theorem set_nth_self {l : List SimEvent} {i : Nat} (h : i < l.length) :
    l.set i (nth l i) = l := by
  rw [nth_eq_getElem h]
  apply List.ext_getElem
  · simp
  · intro n h1 h2
    rw [List.getElem_set]
    split
    · simp_all
    · rfl

theorem length_swapL (l : List SimEvent) (i j : Nat) :
    (swapL l i j).length = l.length := by
  simp [swapL]

theorem nth_swapL_left {l : List SimEvent} {i j : Nat} (hi : i < l.length)
    (hj : j < l.length) : nth (swapL l i j) i = nth l j := by
  unfold swapL
  by_cases hij : i = j
  · subst hij
    rw [nth_set_self (by simpa using hi)]
  · rw [nth_set_ne (fun hc => hij hc.symm), nth_set_self (by simpa using hi)]

theorem nth_swapL_right {l : List SimEvent} {i j : Nat} (hj : j < l.length) :
    nth (swapL l i j) j = nth l i := by
  unfold swapL
  rw [nth_set_self (by simpa using hj)]

theorem nth_swapL_other {l : List SimEvent} {i j m : Nat} (h1 : m ≠ i) (h2 : m ≠ j) :
    nth (swapL l i j) m = nth l m := by
  unfold swapL
  rw [nth_set_ne (fun hc => h2 hc.symm), nth_set_ne (fun hc => h1 hc.symm)]

theorem swapL_perm_lt (l : List SimEvent) (i j : Nat) (hij : i < j) (hj : j < l.length) :
    (swapL l i j).Perm l := by
  have hi' : i < l.length := by omega
  have hlen_take : (l.take i).length = i := List.length_take_of_le (by omega)
  have hm : j - i = (j - i - 1) + 1 := by omega
  have hmid : j - i - 1 < (l.drop (i + 1)).length := by
    rw [List.length_drop]
    omega
  have e1 : l.set i (nth l j) = l.take i ++ nth l j :: l.drop (i + 1) :=
    List.set_eq_take_cons_drop _ hi'
  have e2 : swapL l i j =
      l.take i ++ nth l j :: (l.drop (i + 1)).set (j - i - 1) (nth l i) := by
    unfold swapL
    rw [e1, List.set_append_right _ _ (by rw [hlen_take]; omega)]
    rw [hlen_take, hm, List.set_cons_succ]
    simp
  have e3 : (l.drop (i + 1)).set (j - i - 1) (nth l i) =
      (l.drop (i + 1)).take (j - i - 1) ++
        nth l i :: (l.drop (i + 1)).drop ((j - i - 1) + 1) :=
    List.set_eq_take_cons_drop _ hmid
  have e4 : l.drop (i + 1) =
      (l.drop (i + 1)).take (j - i - 1) ++
        nth l j :: (l.drop (i + 1)).drop ((j - i - 1) + 1) := by
    have hg : (l.drop (i + 1))[j - i - 1] = l[j] := by
      rw [List.getElem_drop]
      congr 1
      omega
    conv_lhs => rw [← List.take_append_drop (j - i - 1) (l.drop (i + 1))]
    rw [List.drop_eq_getElem_cons hmid, hg, nth_eq_getElem hj]
  have e5 : l = l.take i ++ nth l i :: l.drop (i + 1) := by
    conv_lhs => rw [← List.take_append_drop i l]
    rw [List.drop_eq_getElem_cons hi', nth_eq_getElem hi']
  rw [e2, e3]
  conv_rhs => rw [e5]
  conv_rhs => rw [e4]
  refine List.Perm.append_left _ ?_
  refine List.Perm.trans (List.Perm.cons _ List.perm_middle) ?_
  refine List.Perm.trans (List.Perm.swap _ _ _) ?_
  exact List.Perm.cons _ (List.Perm.symm List.perm_middle)

theorem swapL_perm (l : List SimEvent) (i j : Nat) (hi : i < l.length) (hj : j < l.length) :
    (swapL l i j).Perm l := by
  rcases Nat.lt_trichotomy i j with hij | hij | hij
  · exact swapL_perm_lt l i j hij hj
  · subst hij
    unfold swapL
    rw [List.set_set, set_nth_self hi]
  · have hsymm : swapL l i j = swapL l j i := by
      unfold swapL
      rw [List.set_comm _ _ _ (by omega)]
    rw [hsymm]
    exact swapL_perm_lt l j i hij hi

/-- The binary-heap invariant: every non-root entry is `≥` its parent in the
`(fireAt, seq)` order. -/
def IsHeapL (l : List SimEvent) : Prop :=
  ∀ c, 0 < c → c < l.length → keyLE (nth l (hpar c)) (nth l c)

theorem keyLT_trans {a b c : SimEvent} (h1 : keyLT a b) (h2 : keyLT b c) : keyLT a c := by
  unfold keyLT at *
  rcases h1 with h1 | ⟨e1, s1⟩ <;> rcases h2 with h2 | ⟨e2, s2⟩
  · exact Or.inl (lt_trans h1 h2)
  · exact Or.inl (e2 ▸ h1)
  · exact Or.inl (e1 ▸ h2)
  · exact Or.inr ⟨e1.trans e2, Nat.lt_trans s1 s2⟩

theorem hpar_lt {c : Nat} (h : 0 < c) : hpar c < c := by
  unfold hpar
  omega

theorem bubbleUp_perm (i : Nat) : ∀ (l : List SimEvent), i < l.length →
    (bubbleUp l i).Perm l := by
  induction i using Nat.strong_induction_on with
  | _ i ih =>
    intro l hi
    rw [bubbleUp]
    by_cases h0 : i = 0
    · rw [if_pos h0]
    · rw [if_neg h0]
      by_cases hc : hcmp (nth l i) (nth l (hpar i)) < 0
      · rw [if_pos hc]
        have hp : hpar i < i := hpar_lt (Nat.pos_of_ne_zero h0)
        have hpl : hpar i < l.length := Nat.lt_trans hp hi
        have h1 : (swapL l i (hpar i)).length = l.length := length_swapL l i (hpar i)
        refine List.Perm.trans (ih (hpar i) hp _ (by rw [h1]; exact hpl)) ?_
        exact swapL_perm l i (hpar i) hi hpl
      · rw [if_neg hc]

theorem bubbleUp_isHeap (i : Nat) : ∀ (l : List SimEvent), i < l.length →
    (∀ c, 0 < c → c < l.length → c ≠ i → keyLE (nth l (hpar c)) (nth l c)) →
    (0 < i → ∀ c, 0 < c → c < l.length → hpar c = i → keyLE (nth l (hpar i)) (nth l c)) →
    IsHeapL (bubbleUp l i) := by
  induction i using Nat.strong_induction_on with
  | _ i ih =>
    intro l hi hex hch
    rw [bubbleUp]
    by_cases h0 : i = 0
    · rw [if_pos h0]
      intro c hc0 hcl
      exact hex c hc0 hcl (h0 ▸ Nat.pos_iff_ne_zero.mp hc0)
    · rw [if_neg h0]
      have hi0 : 0 < i := Nat.pos_of_ne_zero h0
      have hp : hpar i < i := hpar_lt hi0
      have hpl : hpar i < l.length := Nat.lt_trans hp hi
      by_cases hc : hcmp (nth l i) (nth l (hpar i)) < 0
      · rw [if_pos hc]
        have hLT : keyLT (nth l i) (nth l (hpar i)) := (hcmp_neg_iff _ _).mp hc
        have hlen : (swapL l i (hpar i)).length = l.length := length_swapL _ _ _
        refine ih (hpar i) hp _ (by rw [hlen]; exact hpl) ?_ ?_
        · intro c hc0 hcl hcne
          rw [hlen] at hcl
          by_cases hci : c = i
          · subst hci
            rw [nth_swapL_left hi hpl, nth_swapL_right hpl]
            exact keyLT_keyLE hLT
          · have hnc : nth (swapL l i (hpar i)) c = nth l c := nth_swapL_other hci hcne
            rw [hnc]
            by_cases hpc : hpar c = i
            · rw [hpc, nth_swapL_left hi hpl]
              exact hch hi0 c hc0 hcl hpc
            · by_cases hpp : hpar c = hpar i
              · rw [hpp, nth_swapL_right hpl]
                exact keyLE_trans (keyLT_keyLE hLT) (hpp ▸ hex c hc0 hcl hci)
              · rw [nth_swapL_other hpc hpp]
                exact hex c hc0 hcl hci
        · intro hpp0 c hc0 hcl hpc
          rw [hlen] at hcl
          have hlt1 : hpar (hpar i) < hpar i := hpar_lt hpp0
          have hplt : hpar c < c := hpar_lt hc0
          have hgp : nth (swapL l i (hpar i)) (hpar (hpar i)) = nth l (hpar (hpar i)) := by
            refine nth_swapL_other ?_ ?_ <;> omega
          rw [hgp]
          by_cases hci : c = i
          · rw [hci, nth_swapL_left hi hpl]
            exact hex (hpar i) hpp0 hpl (by omega)
          · rw [nth_swapL_other hci (by omega : c ≠ hpar i)]
            exact keyLE_trans (hex (hpar i) hpp0 hpl (by omega)) (hpc ▸ hex c hc0 hcl hci)
      · rw [if_neg hc]
        intro c hc0 hcl
        by_cases hci : c = i
        · subst hci
          have := (not_keyLT_iff _ _).mp ((hcmp_neg_iff _ _).not.mp hc)
          exact this
        · exact hex c hc0 hcl hci

theorem isHeap_root_min {l : List SimEvent} (hh : IsHeapL l) :
    ∀ j, j < l.length → keyLE (nth l 0) (nth l j) := by
  intro j
  induction j using Nat.strong_induction_on with
  | _ j ih =>
    intro hj
    by_cases h0 : j = 0
    · subst h0
      exact keyLE_refl _
    · have hj0 : 0 < j := Nat.pos_of_ne_zero h0
      exact keyLE_trans (ih (hpar j) (hpar_lt hj0) (Nat.lt_trans (hpar_lt hj0) hj)) (hh j hj0 hj)

theorem keyLE_of_not_cond {l : List SimEvent} {m j : Nat} {P : Prop}
    (h : ¬(P ∧ hcmp (nth l m) (nth l j) < 0)) (hP : P) : keyLE (nth l j) (nth l m) :=
  (not_keyLT_iff _ _).mp (fun hlt => h ⟨hP, (hcmp_neg_iff _ _).mpr hlt⟩)

theorem smallestIdx_spec (l : List SimEvent) (i : Nat) :
    (smallestIdx l i = i ∧
      (2 * i + 1 < l.length → keyLE (nth l i) (nth l (2 * i + 1))) ∧
      (2 * i + 2 < l.length → keyLE (nth l i) (nth l (2 * i + 2)))) ∨
    ((smallestIdx l i = 2 * i + 1 ∨ smallestIdx l i = 2 * i + 2) ∧
      smallestIdx l i < l.length ∧
      keyLT (nth l (smallestIdx l i)) (nth l i) ∧
      (2 * i + 1 < l.length → keyLE (nth l (smallestIdx l i)) (nth l (2 * i + 1))) ∧
      (2 * i + 2 < l.length → keyLE (nth l (smallestIdx l i)) (nth l (2 * i + 2)))) := by
  unfold smallestIdx smallestIdx1
  by_cases hb1 : 2 * i + 1 < l.length ∧ hcmp (nth l (2 * i + 1)) (nth l i) < 0
  · rw [if_pos hb1]
    have L1 : keyLT (nth l (2 * i + 1)) (nth l i) := (hcmp_neg_iff _ _).mp hb1.2
    by_cases hb2 : 2 * i + 2 < l.length ∧ hcmp (nth l (2 * i + 2)) (nth l (2 * i + 1)) < 0
    · rw [if_pos hb2]
      have L2 : keyLT (nth l (2 * i + 2)) (nth l (2 * i + 1)) := (hcmp_neg_iff _ _).mp hb2.2
      exact Or.inr ⟨Or.inr rfl, hb2.1, keyLT_trans L2 L1,
        fun _ => keyLT_keyLE L2, fun _ => keyLE_refl _⟩
    · rw [if_neg hb2]
      exact Or.inr ⟨Or.inl rfl, hb1.1, L1, fun _ => keyLE_refl _,
        fun h2 => keyLE_of_not_cond hb2 h2⟩
  · rw [if_neg hb1]
    by_cases hb2 : 2 * i + 2 < l.length ∧ hcmp (nth l (2 * i + 2)) (nth l i) < 0
    · rw [if_pos hb2]
      have L2 : keyLT (nth l (2 * i + 2)) (nth l i) := (hcmp_neg_iff _ _).mp hb2.2
      refine Or.inr ⟨Or.inr rfl, hb2.1, L2, fun h1 => ?_, fun _ => keyLE_refl _⟩
      exact keyLE_trans (keyLT_keyLE L2) (keyLE_of_not_cond hb1 h1)
    · rw [if_neg hb2]
      exact Or.inl ⟨rfl, fun h1 => keyLE_of_not_cond hb1 h1,
        fun h2 => keyLE_of_not_cond hb2 h2⟩

theorem sinkDown_perm : ∀ (l : List SimEvent) (i : Nat), (sinkDown l i).Perm l := by
  intro l i
  induction l, i using sinkDown.induct with
  | case1 l i hs hrange ih =>
    rw [sinkDown]
    rw [dif_pos hs]
    refine List.Perm.trans ih ?_
    exact swapL_perm l i (smallestIdx l i) (by omega) hrange.2
  | case2 l i hs =>
    rw [sinkDown]
    rw [dif_neg hs]

theorem sinkDown_isHeap : ∀ (l : List SimEvent) (i : Nat),
    (∀ c, 0 < c → c < l.length → hpar c ≠ i → keyLE (nth l (hpar c)) (nth l c)) →
    (0 < i → ∀ c, 0 < c → c < l.length → hpar c = i → keyLE (nth l (hpar i)) (nth l c)) →
    IsHeapL (sinkDown l i) := by
  intro l i
  induction l, i using sinkDown.induct with
  | case1 l i hs hrange ih =>
    intro hex hch
    rw [sinkDown, dif_pos hs]
    rcases smallestIdx_spec l i with ⟨hsi, _, _⟩ | ⟨hs_child, hsn, F1, F2, F3⟩
    · exact absurd hsi hs
    · have his : i < smallestIdx l i := hrange.1
      have hil : i < l.length := by omega
      have hpar_s : hpar (smallestIdx l i) = i := by
        unfold hpar
        rcases hs_child with h | h <;> omega
      have hlen : (swapL l i (smallestIdx l i)).length = l.length := length_swapL _ _ _
      refine ih ?_ ?_
      · intro c hc0 hcl hcs
        rw [hlen] at hcl
        by_cases hcs2 : c = smallestIdx l i
        · rw [hcs2, hpar_s, nth_swapL_left hil hsn, nth_swapL_right hsn]
          exact keyLT_keyLE F1
        · by_cases hci : c = i
          · have hi0 : 0 < i := hci ▸ hc0
            have hpi : hpar i < i := hpar_lt hi0
            rw [hci, nth_swapL_left hil hsn,
              nth_swapL_other (by omega : hpar i ≠ i) (by omega : hpar i ≠ smallestIdx l i)]
            exact hch hi0 (smallestIdx l i) (by omega) hsn hpar_s
          · rw [nth_swapL_other hci hcs2]
            by_cases hpc : hpar c = i
            · rw [hpc, nth_swapL_left hil hsn]
              have hform : c = 2 * i + 1 ∨ c = 2 * i + 2 := by
                unfold hpar at hpc
                omega
              rcases hform with h | h
              · rw [h]
                exact F2 (h ▸ hcl)
              · rw [h]
                exact F3 (h ▸ hcl)
            · rw [nth_swapL_other hpc hcs]
              exact hex c hc0 hcl hpc
      · intro hs0 c hc0 hcl hpc
        rw [hlen] at hcl
        have hcgt : smallestIdx l i < c := hpc ▸ hpar_lt hc0
        rw [hpar_s, nth_swapL_left hil hsn,
          nth_swapL_other (by omega : c ≠ i) (by omega : c ≠ smallestIdx l i)]
        exact hpc ▸ hex c hc0 hcl (by rw [hpc]; omega)
  | case2 l i hs =>
    intro hex hch
    rw [sinkDown, dif_neg hs]
    have hsi : smallestIdx l i = i := by omega
    intro c hc0 hcl
    by_cases hpc : hpar c = i
    · rcases smallestIdx_spec l i with ⟨_, G2, G3⟩ | ⟨hs_child, _, _, _, _⟩
      · have hform : c = 2 * i + 1 ∨ c = 2 * i + 2 := by
          unfold hpar at hpc
          omega
        rw [hpc]
        rcases hform with h | h
        · rw [h]
          exact G2 (h ▸ hcl)
        · rw [h]
          exact G3 (h ▸ hcl)
      · rcases hs_child with h | h <;> omega
    · exact hex c hc0 hcl hpc

theorem nth_append_lt {l1 l2 : List SimEvent} {m : Nat} (h : m < l1.length) :
    nth (l1 ++ l2) m = nth l1 m := by
  unfold nth
  rw [List.getD_eq_getElem?_getD, List.getD_eq_getElem?_getD, List.getElem?_append, if_pos h]

/-- Well-formedness of a `MinHeap` state: the array satisfies the heap
invariant, every stamped `seq` is below the counter, and the `seq`s are
pairwise distinct. Holds for the empty heap and is preserved by `push` and
`pop`. -/
def MinHeap.WF (h : MinHeap) : Prop :=
  IsHeapL h.heap ∧ (∀ e ∈ h.heap, e.seq < h.seqCounter) ∧ (h.heap.map SimEvent.seq).Nodup

theorem push_perm (h : MinHeap) (e : SimEvent) :
    (h.push e).heap.Perm ({ e with seq := h.seqCounter } :: h.heap) := by
  unfold MinHeap.push
  have hlen : (h.heap ++ [{ e with seq := h.seqCounter }]).length = h.heap.length + 1 := by
    simp
  refine List.Perm.trans (bubbleUp_perm _ _ ?_) (List.perm_append_singleton _ _)
  rw [hlen]
  omega

theorem push_isHeap (h : MinHeap) (e : SimEvent) (hh : IsHeapL h.heap) :
    IsHeapL (h.push e).heap := by
  unfold MinHeap.push
  have hlen : (h.heap ++ [{ e with seq := h.seqCounter }]).length = h.heap.length + 1 := by
    simp
  refine bubbleUp_isHeap _ _ (by rw [hlen]; omega) ?_ ?_
  · intro c hc0 hcl hcne
    rw [hlen] at hcl
    have hcN : c < h.heap.length := by
      simp only [hlen, List.length_append, List.length_cons, List.length_nil] at hcne ⊢
      omega
    have hpcN : hpar c < h.heap.length := Nat.lt_trans (hpar_lt hc0) hcN
    rw [nth_append_lt hcN, nth_append_lt hpcN]
    exact hh c hc0 hcN
  · intro hN0 c hc0 hcl hpc
    rw [hlen] at hcl
    have := hpar_lt hc0
    unfold hpar at hpc
    omega

theorem push_WF (h : MinHeap) (e : SimEvent) (hW : h.WF) : (h.push e).WF := by
  obtain ⟨h1, h2, h3⟩ := hW
  refine ⟨push_isHeap h e h1, ?_, ?_⟩
  · intro x hx
    have hx2 := (push_perm h e).mem_iff.mp hx
    have hcnt : (h.push e).seqCounter = h.seqCounter + 1 := rfl
    rw [hcnt]
    rcases List.mem_cons.mp hx2 with hx3 | hx3
    · rw [hx3]
      show h.seqCounter < h.seqCounter + 1
      omega
    · exact Nat.lt_trans (h2 x hx3) (by omega)
  · have hp : ((h.push e).heap.map SimEvent.seq).Perm
        (h.seqCounter :: h.heap.map SimEvent.seq) := (push_perm h e).map SimEvent.seq
    refine hp.nodup_iff.mpr (List.nodup_cons.mpr ⟨?_, h3⟩)
    intro hc
    obtain ⟨x, hx1, hx2⟩ := List.mem_map.mp hc
    have := h2 x hx1
    omega

theorem pop_empty {h : MinHeap} (he : h.heap = []) : h.pop = (none, h) := by
  unfold MinHeap.pop
  rw [he]

/-- `pop` on a nonempty heap: returns the root, the remaining heap is a
permutation of the rest, the counter is unchanged, and the heap invariant is
preserved. -/
theorem pop_nonempty_spec (h : MinHeap) (hne : h.heap ≠ []) :
    ∃ h', h.pop = (some (nth h.heap 0), h') ∧
      h.heap.Perm (nth h.heap 0 :: h'.heap) ∧
      h'.seqCounter = h.seqCounter ∧
      (IsHeapL h.heap → IsHeapL h'.heap) := by
  obtain ⟨hl, cnt⟩ := h
  simp only at hne ⊢
  obtain ⟨top, rest, hh⟩ := List.exists_cons_of_ne_nil hne
  subst hh
  cases rest with
  | nil =>
    exact ⟨⟨[], cnt⟩, rfl, List.Perm.refl _, rfl, fun _ c hc0 hcl => absurd hcl (by simp)⟩
  | cons r rs =>
    have hdl : (top :: r :: rs).dropLast = top :: (r :: rs).dropLast := rfl
    have hdln : ((top :: r :: rs).dropLast).length > 0 := by simp
    have hgl : (top :: r :: rs).getLast (by simp) = (r :: rs).getLast (by simp) :=
      List.getLast_cons (by simp)
    refine ⟨⟨sinkDown (((top :: r :: rs).dropLast).set 0
        ((top :: r :: rs).getLast (by simp))) 0, cnt⟩, ?_, ?_, rfl, ?_⟩
    · show (if ((top :: r :: rs).dropLast).length > 0 then _ else _) = _
      rw [if_pos hdln]
      rfl
    · refine List.Perm.cons _ ?_
      have hset : ((top :: r :: rs).dropLast).set 0 ((top :: r :: rs).getLast (by simp)) =
          (r :: rs).getLast (by simp) :: (r :: rs).dropLast := by
        rw [hdl, List.set_cons_zero, hgl]
      refine List.Perm.symm (List.Perm.trans (sinkDown_perm _ _) ?_)
      rw [hset]
      refine List.Perm.trans (List.Perm.symm (List.perm_append_singleton _ _)) ?_
      rw [List.dropLast_append_getLast (by simp : (r :: rs) ≠ [])]
    · intro hH
      refine sinkDown_isHeap _ 0 ?_ (fun h00 => absurd h00 (by omega))
      intro c hc0 hcl hpc0
      have hlen1 : (((top :: r :: rs).dropLast).set 0
          ((top :: r :: rs).getLast (by simp))).length = (r :: rs).length := by
        simp
      rw [hlen1] at hcl
      have hcl2 : c < (top :: r :: rs).length := by
        simp only [List.length_cons] at hcl ⊢
        omega
      have hv : ∀ m, 0 < m → m < (r :: rs).length →
          nth (((top :: r :: rs).dropLast).set 0 ((top :: r :: rs).getLast (by simp))) m =
            nth (top :: r :: rs) m := by
        intro m hm0 hml
        have hmdl : m < ((top :: r :: rs).dropLast).length := by
          simp only [List.length_dropLast, List.length_cons]
          simp only [List.length_cons] at hml
          omega
        have hmfull : m < (top :: r :: rs).length := by
          simp only [List.length_cons] at hml ⊢
          omega
        rw [nth_set_ne (by omega), nth_eq_getElem hmdl, List.getElem_dropLast,
          nth_eq_getElem hmfull]
      have hpcl : hpar c < (r :: rs).length := Nat.lt_trans (hpar_lt hc0) hcl
      rw [hv c hc0 hcl, hv (hpar c) (Nat.pos_of_ne_zero hpc0) hpcl]
      exact hH c hc0 hcl2

theorem pop_WF (h : MinHeap) (hW : h.WF) : (h.pop).2.WF := by
  by_cases hne : h.heap = []
  · rw [pop_empty hne]
    exact hW
  · obtain ⟨h', hpop, hperm, hcnt, hheap⟩ := pop_nonempty_spec h hne
    rw [hpop]
    obtain ⟨h1, h2, h3⟩ := hW
    refine ⟨hheap h1, ?_, ?_⟩
    · intro x hx
      rw [hcnt]
      exact h2 x (hperm.mem_iff.mpr (List.mem_cons_of_mem _ hx))
    · have hp : (h.heap.map SimEvent.seq).Perm
          ((nth h.heap 0).seq :: h'.heap.map SimEvent.seq) := hperm.map SimEvent.seq
      exact (List.nodup_cons.mp (hp.nodup_iff.mp h3)).2

theorem pop_min (h : MinHeap) (hW : h.WF) (hne : h.heap ≠ []) :
    ∃ e h', h.pop = (some e, h') ∧ e ∈ h.heap ∧ (∀ x ∈ h.heap, keyLE e x) := by
  obtain ⟨h', hpop, hperm, _, _⟩ := pop_nonempty_spec h hne
  have hlen : 0 < h.heap.length := List.length_pos.mpr hne
  refine ⟨nth h.heap 0, h', hpop, ?_, ?_⟩
  · rw [nth_eq_getElem hlen]
    exact List.getElem_mem hlen
  · intro x hx
    obtain ⟨j, hj, hje⟩ := List.mem_iff_getElem.mp hx
    rw [← hje, ← nth_eq_getElem hj]
    exact isHeap_root_min hW.1 j hj

/-- Push a list of events in order. -/
def pushAll (h : MinHeap) (es : List SimEvent) : MinHeap := es.foldl MinHeap.push h

/-- Pop `n` times, collecting the returned events. -/
def popAll : Nat → MinHeap → List SimEvent
  | 0, _ => []
  | n + 1, h =>
    match h.pop with
    | (none, _) => []
    | (some e, h') => e :: popAll n h'

/-- The seq stamps `push` assigns to a list of events pushed in order,
starting from counter value `n`. -/
def stampSeqs : Nat → List SimEvent → List SimEvent
  | _, [] => []
  | n, e :: rest => { e with seq := n } :: stampSeqs (n + 1) rest

theorem empty_WF : MinHeap.empty.WF :=
  ⟨fun c _ hcl => absurd hcl (by simp [MinHeap.empty]), fun e he => absurd he (by simp [MinHeap.empty]), by simp [MinHeap.empty]⟩

theorem pushAll_spec : ∀ (es : List SimEvent) (h : MinHeap), h.WF →
    (pushAll h es).WF ∧
    (pushAll h es).heap.Perm (h.heap ++ stampSeqs h.seqCounter es) ∧
    (pushAll h es).seqCounter = h.seqCounter + es.length := by
  intro es
  induction es with
  | nil =>
    intro h hW
    exact ⟨hW, by simp [pushAll, stampSeqs], by simp [pushAll]⟩
  | cons e es ih =>
    intro h hW
    have hstep : pushAll h (e :: es) = pushAll (h.push e) es := rfl
    obtain ⟨ihW, ihP, ihC⟩ := ih (h.push e) (push_WF h e hW)
    refine ⟨hstep ▸ ihW, ?_, ?_⟩
    · rw [hstep]
      refine List.Perm.trans ihP ?_
      have hc : (h.push e).seqCounter = h.seqCounter + 1 := rfl
      rw [hc]
      refine List.Perm.trans (List.Perm.append_right _ (push_perm h e)) ?_
      show ({ e with seq := h.seqCounter } :: h.heap ++ stampSeqs (h.seqCounter + 1) es).Perm _
      have hst : stampSeqs h.seqCounter (e :: es) =
          { e with seq := h.seqCounter } :: stampSeqs (h.seqCounter + 1) es := rfl
      rw [hst]
      exact List.Perm.symm List.perm_middle
    · rw [hstep, ihC]
      show h.seqCounter + 1 + es.length = h.seqCounter + (es.length + 1)
      omega

theorem popAll_spec : ∀ (n : Nat) (h : MinHeap), h.WF → n = h.heap.length →
    (popAll n h).Perm h.heap ∧ List.Sorted keyLE (popAll n h) := by
  intro n
  induction n with
  | zero =>
    intro h _ hlen
    have : h.heap = [] := List.length_eq_zero.mp hlen.symm
    rw [this]
    exact ⟨List.Perm.refl _, List.sorted_nil⟩
  | succ n ih =>
    intro h hW hlen
    have hne : h.heap ≠ [] := by
      intro hc
      rw [hc] at hlen
      simp at hlen
    obtain ⟨h', hpop, hperm, hcnt, hheap⟩ := pop_nonempty_spec h hne
    have hW' : h'.WF := by
      have := pop_WF h hW
      rw [hpop] at this
      exact this
    have hlen' : n = h'.heap.length := by
      have := hperm.length_eq
      simp only [List.length_cons] at this
      omega
    obtain ⟨ihP, ihS⟩ := ih h' hW' hlen'
    have hpopAll : popAll (n + 1) h = nth h.heap 0 :: popAll n h' := by
      show (match h.pop with
        | (none, _) => []
        | (some e, h') => e :: popAll n h') = _
      rw [hpop]
    rw [hpopAll]
    constructor
    · exact List.Perm.symm (List.Perm.trans hperm (List.Perm.symm (List.Perm.cons _ ihP)))
    · rw [List.sorted_cons]
      refine ⟨?_, ihS⟩
      intro b hb
      have hb2 : b ∈ h.heap :=
        hperm.mem_iff.mpr (List.mem_cons_of_mem _ (ihP.mem_iff.mp hb))
      obtain ⟨j, hj, hje⟩ := List.mem_iff_getElem.mp hb2
      rw [← hje, ← nth_eq_getElem hj]
      exact isHeap_root_min hW.1 j hj

/-- C4: (a) on every well-formed nonempty queue state, `pop` returns an element
of the queue that is minimal in the `(fireAt, seq)` lexicographic order;
(b) `push` stamps the event's `seq` from the monotonically increasing counter
and increments the counter; well-formedness holds for the empty queue and is
preserved by `push` and `pop` (so it holds in every reachable state);
(c) pushing `n` events into an empty queue and popping `n` times yields exactly
the stamped events, sorted by `(fireAt, seq)` — same-`fireAt` events come out
first-scheduled-first-processed. -/
theorem C4_queue_ordering :
    (∀ h : MinHeap, h.WF → h.heap ≠ [] →
      ∃ e h', h.pop = (some e, h') ∧ e ∈ h.heap ∧ (∀ x ∈ h.heap, keyLE e x)) ∧
    (∀ (h : MinHeap) (e : SimEvent),
      (h.push e).seqCounter = h.seqCounter + 1 ∧
      (h.push e).heap.Perm ({ e with seq := h.seqCounter } :: h.heap)) ∧
    MinHeap.empty.WF ∧
    (∀ (h : MinHeap) (e : SimEvent), h.WF → (h.push e).WF) ∧
    (∀ h : MinHeap, h.WF → (h.pop).2.WF) ∧
    (∀ es : List SimEvent,
      (popAll es.length (pushAll MinHeap.empty es)).Perm (stampSeqs 0 es) ∧
      List.Sorted keyLE (popAll es.length (pushAll MinHeap.empty es))) := by
  refine ⟨pop_min, fun h e => ⟨rfl, push_perm h e⟩, empty_WF,
    fun h e hW => push_WF h e hW, pop_WF, fun es => ?_⟩
  obtain ⟨hW, hP, hC⟩ := pushAll_spec es MinHeap.empty empty_WF
  have hlen : es.length = (pushAll MinHeap.empty es).heap.length := by
    have h1 := hP.length_eq
    have h2 : ∀ (n : Nat) (l : List SimEvent), (stampSeqs n l).length = l.length := by
      intro n l
      induction l generalizing n with
      | nil => rfl
      | cons x xs ih =>
        show (stampSeqs n (x :: xs)).length = xs.length + 1
        rw [show stampSeqs n (x :: xs) = { x with seq := n } :: stampSeqs (n + 1) xs from rfl]
        simp [ih]
    rw [show MinHeap.empty.heap = [] from rfl, List.nil_append,
      show MinHeap.empty.seqCounter = 0 from rfl] at h1
    rw [h1, h2]
  obtain ⟨hperm, hsorted⟩ := popAll_spec es.length (pushAll MinHeap.empty es) hW hlen
  refine ⟨?_, hsorted⟩
  refine List.Perm.trans hperm ?_
  refine List.Perm.trans hP ?_
  rw [show MinHeap.empty.heap = [] from rfl, List.nil_append,
    show MinHeap.empty.seqCounter = 0 from rfl]

/-- Witness for C4: builds a concrete two-event queue through the theorem's own
preservation conjuncts and applies the `pop`-minimality conjunct to it. -/
theorem C4_queue_ordering_witness :
    (∃ e h',
      (MinHeap.push (MinHeap.push MinHeap.empty
        { fireAt := 5, seq := 0, protocol := .rlnc, kind := .shard_arrive,
          fromNode := "a", toNode := "b", dropped := false })
        { fireAt := 3, seq := 0, protocol := .gossipsub, kind := .message_arrive,
          fromNode := "b", toNode := "a", dropped := false }).pop = (some e, h') ∧
      e ∈ (MinHeap.push (MinHeap.push MinHeap.empty
        { fireAt := 5, seq := 0, protocol := .rlnc, kind := .shard_arrive,
          fromNode := "a", toNode := "b", dropped := false })
        { fireAt := 3, seq := 0, protocol := .gossipsub, kind := .message_arrive,
          fromNode := "b", toNode := "a", dropped := false }).heap ∧
      (∀ x ∈ (MinHeap.push (MinHeap.push MinHeap.empty
        { fireAt := 5, seq := 0, protocol := .rlnc, kind := .shard_arrive,
          fromNode := "a", toNode := "b", dropped := false })
        { fireAt := 3, seq := 0, protocol := .gossipsub, kind := .message_arrive,
          fromNode := "b", toNode := "a", dropped := false }).heap, keyLE e x)) := by
  refine C4_queue_ordering.1 _ ?_ ?_
  · exact C4_queue_ordering.2.2.2.1 _ _ (C4_queue_ordering.2.2.2.1 _ _ C4_queue_ordering.2.2.1)
  · with_unfolding_all decide

/-! ### C8: splitting `advanceTo` across intermediate times -/

/-- Erase the two metrics fields that only `recomputeCompletion` writes
(`allDone`, `lastDeliverySimMs`). Two states with equal `scrub` behave
identically under event processing. -/
def scrub (st : EngineState) : EngineState :=
  { st with metrics :=
    { rlnc := { st.metrics.rlnc with allDone := false, lastDeliverySimMs := none },
      gossipsub := { st.metrics.gossipsub with allDone := false, lastDeliverySimMs := none } } }

theorem scrub_recomputeCompletion (st : EngineState) :
    scrub (recomputeCompletion st) = scrub st := rfl

theorem scrub_eventQueue (st : EngineState) : (scrub st).eventQueue = st.eventQueue := rfl

theorem scrub_rlncTrackers (st : EngineState) : (scrub st).rlncTrackers = st.rlncTrackers := rfl

theorem scrub_gossipReceived (st : EngineState) :
    (scrub st).gossipReceived = st.gossipReceived := rfl

theorem scrub_gossipForwarded (st : EngineState) :
    (scrub st).gossipForwarded = st.gossipForwarded := rfl

theorem scrub_edgeLookup (st : EngineState) : (scrub st).edgeLookup = st.edgeLookup := rfl

theorem scrub_rlncNodeDeliveryTime (st : EngineState) :
    (scrub st).rlncNodeDeliveryTime = st.rlncNodeDeliveryTime := rfl

theorem scrub_gossipNodeDeliveryTime (st : EngineState) :
    (scrub st).gossipNodeDeliveryTime = st.gossipNodeDeliveryTime := rfl

theorem scrub_rlncRecodePushes (st : EngineState) :
    (scrub st).rlncRecodePushes = st.rlncRecodePushes := rfl

theorem scrub_gossipRetries (st : EngineState) :
    (scrub st).gossipRetries = st.gossipRetries := rfl

theorem scrub_publisherId (st : EngineState) : (scrub st).publisherId = st.publisherId := rfl

theorem scrub_simK (st : EngineState) : (scrub st).simK = st.simK := rfl

theorem scrub_pushEvent (st : EngineState) (e : SimEvent) :
    pushEvent (scrub st) e = scrub (pushEvent st e) := rfl

theorem scrub_draw2 (st : EngineState) : (scrub st).draw.2 = scrub st.draw.2 := rfl

theorem scrub_draw1 (st : EngineState) : (scrub st).draw.1 = st.draw.1 := rfl

theorem scrub_bumpRlncTotal (st : EngineState) :
    bumpRlncTotal (scrub st) = scrub (bumpRlncTotal st) := rfl

theorem scrub_bumpRlncUseful (st : EngineState) :
    bumpRlncUseful (scrub st) = scrub (bumpRlncUseful st) := rfl

theorem scrub_bumpGossipTotal (st : EngineState) :
    bumpGossipTotal (scrub st) = scrub (bumpGossipTotal st) := rfl

theorem scrub_bumpGossipUseful (st : EngineState) :
    bumpGossipUseful (scrub st) = scrub (bumpGossipUseful st) := rfl

theorem scrub_bumpGossipDuplicates (st : EngineState) :
    bumpGossipDuplicates (scrub st) = scrub (bumpGossipDuplicates st) := rfl

theorem foldl_rel {α β γ : Type} (R : β → γ → Prop) (f : β → α → β) (g : γ → α → γ)
    (l : List α) (b : β) (c : γ) (hbc : R b c)
    (hstep : ∀ b c a, a ∈ l → R b c → R (f b a) (g c a)) :
    R (l.foldl f b) (l.foldl g c) := by
  induction l generalizing b c with
  | nil => exact hbc
  | cons x xs ih =>
    exact ih (f b x) (g c x) (hstep b c x (List.mem_cons_self _ _) hbc)
      (fun b c a ha hR => hstep b c a (List.mem_cons_of_mem _ ha) hR)

theorem scrub_drawVector (st : EngineState) (k : Nat) :
    drawVector (scrub st) k = ((drawVector st k).1, scrub (drawVector st k).2) := by
  unfold drawVector
  refine foldl_rel
    (fun (x y : List Nat × EngineState) => x = (y.1, scrub y.2)) _ _ _ _ _ rfl ?_
  intro b c a _ hR
  rw [hR]
  rfl

theorem scrub_rlncRelayLeg (e : SimEvent) (lr : ℚ) (st : EngineState) (nid : String) :
    rlncRelayLeg e lr (scrub st) nid = scrub (rlncRelayLeg e lr st nid) := by
  unfold rlncRelayLeg
  simp only [scrub_publisherId, scrub_rlncTrackers, scrub_edgeLookup]
  repeat' split
  any_goals rfl
  refine foldl_rel (fun (x y : EngineState) => x = scrub y) _ _ _ _ _ rfl ?_
  intro b c a _ hR
  rw [hR]
  show pushEvent (drawVector (scrub c) (scrub c).simK).2.draw.2 _ = scrub _
  rw [scrub_simK, scrub_drawVector]
  rfl

theorem scrub_gossipForwardLeg (e : SimEvent) (lr d : ℚ) (st : EngineState) (nid : String) :
    gossipForwardLeg e lr d (scrub st) nid = scrub (gossipForwardLeg e lr d st nid) := by
  unfold gossipForwardLeg
  simp only [scrub_edgeLookup]
  repeat' split
  any_goals rfl

theorem scrub_gossipRetryLeg (e : SimEvent) (lr d : ℚ) (st : EngineState) (nid : String) :
    gossipRetryLeg e lr d (scrub st) nid = scrub (gossipRetryLeg e lr d st nid) := by
  unfold gossipRetryLeg
  simp only [scrub_edgeLookup]
  repeat' split
  any_goals rfl


theorem bumpRlncUseful_rlncNodeDeliveryTime (st : EngineState) :
    (bumpRlncUseful st).rlncNodeDeliveryTime = st.rlncNodeDeliveryTime := rfl

theorem bumpRlncUseful_rlncRecodePushes (st : EngineState) :
    (bumpRlncUseful st).rlncRecodePushes = st.rlncRecodePushes := rfl

theorem bumpRlncUseful_rlncTrackers (st : EngineState) :
    (bumpRlncUseful st).rlncTrackers = st.rlncTrackers := rfl

theorem bumpRlncUseful_rlncDelivered (st : EngineState) :
    (bumpRlncUseful st).metrics.rlnc.deliveredNodes = st.metrics.rlnc.deliveredNodes := rfl

theorem bumpGossipUseful_gossipReceived (st : EngineState) :
    (bumpGossipUseful st).gossipReceived = st.gossipReceived := rfl

theorem bumpGossipUseful_gossipForwarded (st : EngineState) :
    (bumpGossipUseful st).gossipForwarded = st.gossipForwarded := rfl

theorem bumpGossipUseful_gossipNodeDeliveryTime (st : EngineState) :
    (bumpGossipUseful st).gossipNodeDeliveryTime = st.gossipNodeDeliveryTime := rfl

theorem bumpGossipUseful_gossipRetries (st : EngineState) :
    (bumpGossipUseful st).gossipRetries = st.gossipRetries := rfl

theorem bumpGossipUseful_simK (st : EngineState) :
    (bumpGossipUseful st).simK = st.simK := rfl

theorem bumpGossipUseful_gossipDelivered (st : EngineState) :
    (bumpGossipUseful st).metrics.gossipsub.deliveredNodes = st.metrics.gossipsub.deliveredNodes := rfl

theorem scrub_rlncDelivered (st : EngineState) :
    (scrub st).metrics.rlnc.deliveredNodes = st.metrics.rlnc.deliveredNodes := rfl

theorem scrub_gossipDelivered (st : EngineState) :
    (scrub st).metrics.gossipsub.deliveredNodes = st.metrics.gossipsub.deliveredNodes := rfl

theorem scrub_rlncLastRedundantSimTime (st : EngineState) :
    (scrub st).rlncLastRedundantSimTime = st.rlncLastRedundantSimTime := rfl

theorem scrub_gossipLastDuplicateSimTime (st : EngineState) :
    (scrub st).gossipLastDuplicateSimTime = st.gossipLastDuplicateSimTime := rfl

theorem scrub_foldl_rlncRelay (e : SimEvent) (lr : ℚ) (ns : List String)
    (x y : EngineState) (h : x = scrub y) :
    ns.foldl (rlncRelayLeg e lr) x = scrub (ns.foldl (rlncRelayLeg e lr) y) := by
  induction ns generalizing x y with
  | nil => exact h
  | cons a as ih =>
    simp only [List.foldl_cons]
    exact ih _ _ (by rw [h, scrub_rlncRelayLeg])

theorem scrub_foldl_gossipForward (e : SimEvent) (lr d : ℚ) (ns : List String)
    (x y : EngineState) (h : x = scrub y) :
    ns.foldl (gossipForwardLeg e lr d) x = scrub (ns.foldl (gossipForwardLeg e lr d) y) := by
  induction ns generalizing x y with
  | nil => exact h
  | cons a as ih =>
    simp only [List.foldl_cons]
    exact ih _ _ (by rw [h, scrub_gossipForwardLeg])

theorem scrub_foldl_gossipRetry (e : SimEvent) (lr d : ℚ) (ns : List String)
    (x y : EngineState) (h : x = scrub y) :
    ns.foldl (gossipRetryLeg e lr d) x = scrub (ns.foldl (gossipRetryLeg e lr d) y) := by
  induction ns generalizing x y with
  | nil => exact h
  | cons a as ih =>
    simp only [List.foldl_cons]
    exact ih _ _ (by rw [h, scrub_gossipRetryLeg])

theorem gossipForwardLeg_gossipRetries (e : SimEvent) (lr d : ℚ) (st : EngineState)
    (n : String) : (gossipForwardLeg e lr d st n).gossipRetries = st.gossipRetries := by
  unfold gossipForwardLeg
  repeat' split
  all_goals rfl

theorem foldl_gossipForward_gossipRetries (e : SimEvent) (lr d : ℚ) (ns : List String)
    (x : EngineState) :
    (ns.foldl (gossipForwardLeg e lr d) x).gossipRetries = x.gossipRetries := by
  induction ns generalizing x with
  | nil => rfl
  | cons a as ih => simp only [List.foldl_cons]; rw [ih, gossipForwardLeg_gossipRetries]

theorem foldl_gossipForward_simK (e : SimEvent) (lr d : ℚ) (ns : List String)
    (x : EngineState) :
    (ns.foldl (gossipForwardLeg e lr d) x).simK = x.simK := by
  induction ns generalizing x with
  | nil => rfl
  | cons a as ih =>
    simp only [List.foldl_cons]
    rw [ih]
    unfold gossipForwardLeg
    repeat' split
    all_goals rfl

theorem scrub_foldl_gossipRetryFwd (e : SimEvent) (lr d : ℚ) (ns ms : List String)
    (x y : EngineState) (w : List (String × Nat)) (h : x = scrub y) :
    ms.foldl (gossipRetryLeg e lr d)
        { ns.foldl (gossipForwardLeg e lr d) x with gossipRetries := w }
      = scrub (ms.foldl (gossipRetryLeg e lr d)
        { ns.foldl (gossipForwardLeg e lr d) y with gossipRetries := w }) := by
  refine scrub_foldl_gossipRetry _ _ _ _ _ _ ?_
  rw [scrub_foldl_gossipForward e lr d ns x y h]
  rfl

theorem scrub_processRLNC (st : EngineState) (e : SimEvent) (lr : ℚ)
    (nodes : List NodeInfo) :
    processRLNC (scrub st) e lr nodes =
      (scrub (processRLNC st e lr nodes).1, (processRLNC st e lr nodes).2) := by
  unfold processRLNC
  simp only [scrub_bumpRlncTotal, scrub_edgeLookup, scrub_rlncTrackers,
    scrub_bumpRlncUseful, bumpRlncUseful_rlncNodeDeliveryTime,
    bumpRlncUseful_rlncRecodePushes, bumpRlncUseful_rlncDelivered,
    scrub_rlncNodeDeliveryTime, scrub_rlncRecodePushes, scrub_rlncDelivered,
    scrub_rlncLastRedundantSimTime]
  repeat' (first
    | rfl
    | (split <;> try simp only [scrub_bumpRlncTotal, scrub_edgeLookup, scrub_rlncTrackers,
        scrub_bumpRlncUseful, bumpRlncUseful_rlncNodeDeliveryTime,
        bumpRlncUseful_rlncRecodePushes, bumpRlncUseful_rlncDelivered,
        scrub_rlncNodeDeliveryTime, scrub_rlncRecodePushes, scrub_rlncDelivered,
        scrub_rlncLastRedundantSimTime]))
  all_goals refine congrArg (fun z => (z, _)) (scrub_foldl_rlncRelay _ _ _ _ _ ?_)
  all_goals rfl

theorem scrub_processGossip (st : EngineState) (e : SimEvent) (lr : ℚ)
    (nodes : List NodeInfo) :
    processGossip (scrub st) e lr nodes =
      (scrub (processGossip st e lr nodes).1, (processGossip st e lr nodes).2) := by
  unfold processGossip
  simp only [scrub_bumpGossipTotal, scrub_edgeLookup, scrub_gossipReceived,
    scrub_bumpGossipDuplicates, scrub_bumpGossipUseful, scrub_gossipLastDuplicateSimTime,
    bumpGossipUseful_gossipReceived, bumpGossipUseful_gossipForwarded,
    bumpGossipUseful_gossipNodeDeliveryTime, bumpGossipUseful_gossipRetries,
    bumpGossipUseful_simK, bumpGossipUseful_gossipDelivered,
    scrub_gossipForwarded, scrub_gossipNodeDeliveryTime, scrub_gossipRetries,
    scrub_simK, scrub_gossipDelivered, foldl_gossipForward_gossipRetries]
  repeat' (first
    | rfl
    | (split <;> try simp only [scrub_bumpGossipTotal, scrub_edgeLookup, scrub_gossipReceived,
        scrub_bumpGossipDuplicates, scrub_bumpGossipUseful, scrub_gossipLastDuplicateSimTime,
        bumpGossipUseful_gossipReceived, bumpGossipUseful_gossipForwarded,
        bumpGossipUseful_gossipNodeDeliveryTime, bumpGossipUseful_gossipRetries,
        bumpGossipUseful_simK, bumpGossipUseful_gossipDelivered,
        scrub_gossipForwarded, scrub_gossipNodeDeliveryTime, scrub_gossipRetries,
        scrub_simK, scrub_gossipDelivered, foldl_gossipForward_gossipRetries]))
  all_goals refine congrArg (fun z => (z, _)) ?_
  all_goals first
    | (refine scrub_foldl_gossipForward _ _ _ _ _ _ ?_
       rfl)
    | (refine scrub_foldl_gossipRetryFwd _ _ _ _ _ _ _ _ ?_
       rfl)


theorem scrub_upd_eventQueue (st : EngineState) (q : MinHeap) :
    ({ scrub st with eventQueue := q } : EngineState) = scrub { st with eventQueue := q } := rfl

theorem scrub_engineStep (st : EngineState) (t lr : ℚ) (ns : List NodeInfo) :
    engineStep (scrub st) t lr ns =
      (engineStep st t lr ns).map (fun r => (r.1, scrub r.2.1, r.2.2)) := by
  unfold engineStep
  simp only [scrub_eventQueue, scrub_upd_eventQueue, scrub_processRLNC, scrub_processGossip]
  repeat' split
  all_goals rfl

theorem scrub_drainLoop (f : Nat) (st : EngineState) (t lr : ℚ) (ns : List NodeInfo) :
    drainLoop f (scrub st) t lr ns =
      (scrub (drainLoop f st t lr ns).1,
       (drainLoop f st t lr ns).2.1, (drainLoop f st t lr ns).2.2) := by
  induction f generalizing st with
  | zero => rfl
  | succ f ih =>
    simp only [drainLoop, scrub_engineStep]
    cases hs : engineStep st t lr ns with
    | none => rfl
    | some r =>
      obtain ⟨e, st2, ps⟩ := r
      dsimp only [Option.map]
      rw [ih st2]

theorem drainLoop_of_none (g : Nat) (st : EngineState) (t lr : ℚ) (ns : List NodeInfo)
    (h : engineStep st t lr ns = none) :
    drainLoop g st t lr ns = (st, [], []) := by
  cases g with
  | zero => rfl
  | succ g => simp only [drainLoop, h]

theorem drainLoop_saturate (f g : Nat) (st : EngineState) (t lr : ℚ) (ns : List NodeInfo)
    (h : engineStep (drainLoop f st t lr ns).1 t lr ns = none) :
    drainLoop (f + g) st t lr ns = drainLoop f st t lr ns := by
  induction f generalizing st with
  | zero =>
    rw [Nat.zero_add]
    exact (drainLoop_of_none g st t lr ns h).trans (drainLoop_of_none 0 st t lr ns h).symm
  | succ f ih =>
    rw [show f + 1 + g = (f + g) + 1 from by omega]
    simp only [drainLoop]
    cases hs : engineStep st t lr ns with
    | none => rfl
    | some r =>
      obtain ⟨e, st2, ps⟩ := r
      dsimp only
      rw [drainLoop, hs] at h
      dsimp only at h
      rw [ih st2 h]

theorem drainLoop_fuel_eq (fa fb : Nat) (st : EngineState) (t lr : ℚ) (ns : List NodeInfo)
    (ha : engineStep (drainLoop fa st t lr ns).1 t lr ns = none)
    (hb : engineStep (drainLoop fb st t lr ns).1 t lr ns = none) :
    drainLoop fa st t lr ns = drainLoop fb st t lr ns := by
  have h1 := drainLoop_saturate fa fb st t lr ns ha
  have h2 := drainLoop_saturate fb fa st t lr ns hb
  rw [← h1, Nat.add_comm fa fb, h2]

theorem engineStep_mono (st : EngineState) (t1 t2 lr : ℚ) (ns : List NodeInfo)
    (r : SimEvent × EngineState × List AnimatedParticle) (h12 : t1 ≤ t2)
    (hs : engineStep st t1 lr ns = some r) : engineStep st t2 lr ns = some r := by
  unfold engineStep at hs ⊢
  cases hp : st.eventQueue.peek with
  | none =>
    rw [hp] at hs
    exact absurd hs (by simp)
  | some e =>
    rw [hp] at hs
    dsimp only at hs ⊢
    by_cases hf : e.fireAt ≤ t1
    · rw [if_pos hf] at hs
      rw [if_pos (le_trans hf h12)]
      exact hs
    · rw [if_neg hf] at hs
      exact absurd hs (by simp)


/-- The drain at `t2` decomposes into the drain at `t1 ≤ t2` followed by a
drain of the remainder at `t2`, provided each run has enough fuel to reach
quiescence. -/
theorem drainLoop_split (f1 : Nat) :
    ∀ (f2 f3 : Nat) (st : EngineState) (t1 t2 lr : ℚ) (ns : List NodeInfo),
    t1 ≤ t2 →
    engineStep (drainLoop f1 st t1 lr ns).1 t1 lr ns = none →
    engineStep (drainLoop f2 (drainLoop f1 st t1 lr ns).1 t2 lr ns).1 t2 lr ns = none →
    engineStep (drainLoop f3 st t2 lr ns).1 t2 lr ns = none →
    drainLoop f3 st t2 lr ns =
      ((drainLoop f2 (drainLoop f1 st t1 lr ns).1 t2 lr ns).1,
       (drainLoop f1 st t1 lr ns).2.1 ++
         (drainLoop f2 (drainLoop f1 st t1 lr ns).1 t2 lr ns).2.1,
       (drainLoop f1 st t1 lr ns).2.2 ++
         (drainLoop f2 (drainLoop f1 st t1 lr ns).1 t2 lr ns).2.2) := by
  induction f1 with
  | zero =>
    intro f2 f3 st t1 t2 lr ns h12 h1 h2 h3
    have hz : drainLoop 0 st t1 lr ns = (st, [], []) := rfl
    rw [hz] at h2 ⊢
    dsimp only at h2 ⊢
    rw [drainLoop_fuel_eq f3 f2 st t2 lr ns h3 h2]
    simp only [List.nil_append]
  | succ f1 ih =>
    intro f2 f3 st t1 t2 lr ns h12 h1 h2 h3
    cases hs : engineStep st t1 lr ns with
    | none =>
      have hz : drainLoop (f1 + 1) st t1 lr ns = (st, [], []) :=
        drainLoop_of_none _ st t1 lr ns hs
      rw [hz] at h2 ⊢
      dsimp only at h2 ⊢
      rw [drainLoop_fuel_eq f3 f2 st t2 lr ns h3 h2]
      simp only [List.nil_append]
    | some r =>
      obtain ⟨e, st2, ps⟩ := r
      have hstep : drainLoop (f1 + 1) st t1 lr ns =
          ((drainLoop f1 st2 t1 lr ns).1,
           ps ++ (drainLoop f1 st2 t1 lr ns).2.1,
           e :: (drainLoop f1 st2 t1 lr ns).2.2) := by
        simp only [drainLoop, hs]
      rw [hstep] at h1 h2 ⊢
      dsimp only at h1 h2 ⊢
      have hs2 : engineStep st t2 lr ns = some (e, st2, ps) :=
        engineStep_mono st t1 t2 lr ns (e, st2, ps) h12 hs
      cases f3 with
      | zero =>
        rw [show drainLoop 0 st t2 lr ns = (st, [], []) from rfl] at h3
        dsimp only at h3
        exact absurd hs2 (by rw [h3]; simp)
      | succ f3 =>
        have hstep2 : drainLoop (f3 + 1) st t2 lr ns =
            ((drainLoop f3 st2 t2 lr ns).1,
             ps ++ (drainLoop f3 st2 t2 lr ns).2.1,
             e :: (drainLoop f3 st2 t2 lr ns).2.2) := by
          simp only [drainLoop, hs2]
        rw [hstep2] at h3 ⊢
        dsimp only at h3 ⊢
        rw [ih f2 f3 st2 t1 t2 lr ns h12 h1 h2 h3]
        simp only [List.cons_append, List.append_assoc]


theorem drawVector_snd (k : Nat) (st : EngineState) :
    (drawVector st k).2 = { st with rngIdx := st.rngIdx + k } := by
  induction k generalizing st with
  | zero => rfl
  | succ k ih =>
    unfold drawVector at ih ⊢
    rw [List.range_succ, List.foldl_append, List.foldl_cons, List.foldl_nil]
    dsimp only
    rw [ih st]
    rfl

theorem foldl_proj {α β : Type} (proj : EngineState → β) (f : EngineState → α → EngineState)
    (hf : ∀ s a, proj (f s a) = proj s) (l : List α) :
    ∀ s, proj (l.foldl f s) = proj s := by
  induction l with
  | nil => intro s; rfl
  | cons a as ih => intro s; rw [List.foldl_cons, ih, hf]

theorem rlncRelayLeg_frame (e : SimEvent) (lr : ℚ) (st : EngineState) (n : String) :
    ((rlncRelayLeg e lr st n).metrics,
     (rlncRelayLeg e lr st n).rlncNodeDeliveryTime,
     (rlncRelayLeg e lr st n).gossipNodeDeliveryTime) =
      (st.metrics, st.rlncNodeDeliveryTime, st.gossipNodeDeliveryTime) := by
  unfold rlncRelayLeg
  repeat' split
  any_goals rfl
  refine foldl_proj
    (fun z => (z.metrics, z.rlncNodeDeliveryTime, z.gossipNodeDeliveryTime)) _ ?_ _ _
  intro s a
  show ((pushEvent (drawVector s s.simK).2.draw.2 _).metrics, _, _) = _
  rw [show ∀ z : EngineState, ∀ ev, (pushEvent z ev).metrics = z.metrics from fun z ev => rfl]
  rw [show ∀ z : EngineState, ∀ ev, (pushEvent z ev).rlncNodeDeliveryTime = z.rlncNodeDeliveryTime from fun z ev => rfl]
  rw [show ∀ z : EngineState, ∀ ev, (pushEvent z ev).gossipNodeDeliveryTime = z.gossipNodeDeliveryTime from fun z ev => rfl]
  rw [drawVector_snd]
  rfl

theorem gossipForwardLeg_frame (e : SimEvent) (lr d : ℚ) (st : EngineState) (n : String) :
    ((gossipForwardLeg e lr d st n).metrics,
     (gossipForwardLeg e lr d st n).rlncNodeDeliveryTime,
     (gossipForwardLeg e lr d st n).gossipNodeDeliveryTime) =
      (st.metrics, st.rlncNodeDeliveryTime, st.gossipNodeDeliveryTime) := by
  unfold gossipForwardLeg
  repeat' split
  all_goals rfl

theorem gossipRetryLeg_frame (e : SimEvent) (lr d : ℚ) (st : EngineState) (n : String) :
    ((gossipRetryLeg e lr d st n).metrics,
     (gossipRetryLeg e lr d st n).rlncNodeDeliveryTime,
     (gossipRetryLeg e lr d st n).gossipNodeDeliveryTime) =
      (st.metrics, st.rlncNodeDeliveryTime, st.gossipNodeDeliveryTime) := by
  unfold gossipRetryLeg
  repeat' split
  all_goals rfl


theorem alSet_ne_nil {α : Type} (m : List (String × α)) (k : String) (v : α) :
    alSet m k v ≠ [] := by
  unfold alSet
  split
  · intro h
    have := congrArg List.length h
    simp only [List.length_map] at this
    rename_i hany
    cases m with
    | nil => simp at hany
    | cons p ps => simp at this
  · intro h
    have := congrArg List.length h
    simp at this

theorem processRLNC_frame (st : EngineState) (e : SimEvent) (lr : ℚ)
    (ns : List NodeInfo) :
    ((processRLNC st e lr ns).1.metrics.rlnc.lastDeliverySimMs,
     (processRLNC st e lr ns).1.metrics.gossipsub.lastDeliverySimMs,
     (processRLNC st e lr ns).1.gossipNodeDeliveryTime) =
      (st.metrics.rlnc.lastDeliverySimMs, st.metrics.gossipsub.lastDeliverySimMs,
       st.gossipNodeDeliveryTime) := by
  unfold processRLNC
  dsimp only
  repeat' split
  any_goals rfl
  all_goals exact Eq.trans (foldl_proj (fun z =>
    (z.metrics.rlnc.lastDeliverySimMs, z.metrics.gossipsub.lastDeliverySimMs,
     z.gossipNodeDeliveryTime)) _ (fun s a => congrArg
    (fun p => (p.1.rlnc.lastDeliverySimMs, p.1.gossipsub.lastDeliverySimMs, p.2.2))
    (rlncRelayLeg_frame e lr s a)) _ _) rfl

theorem processGossip_frame (st : EngineState) (e : SimEvent) (lr : ℚ)
    (ns : List NodeInfo) :
    ((processGossip st e lr ns).1.metrics.rlnc.lastDeliverySimMs,
     (processGossip st e lr ns).1.metrics.gossipsub.lastDeliverySimMs,
     (processGossip st e lr ns).1.rlncNodeDeliveryTime) =
      (st.metrics.rlnc.lastDeliverySimMs, st.metrics.gossipsub.lastDeliverySimMs,
       st.rlncNodeDeliveryTime) := by
  unfold processGossip
  dsimp only
  repeat' split
  any_goals rfl
  all_goals first
    | exact Eq.trans (foldl_proj (fun z =>
    (z.metrics.rlnc.lastDeliverySimMs, z.metrics.gossipsub.lastDeliverySimMs,
     z.rlncNodeDeliveryTime)) _ (fun s a => congrArg
    (fun p => (p.1.rlnc.lastDeliverySimMs, p.1.gossipsub.lastDeliverySimMs, p.2.1))
    (gossipRetryLeg_frame e lr _ s a)) _ _)
        (Eq.trans (foldl_proj (fun z =>
    (z.metrics.rlnc.lastDeliverySimMs, z.metrics.gossipsub.lastDeliverySimMs,
     z.rlncNodeDeliveryTime)) _ (fun s a => congrArg
    (fun p => (p.1.rlnc.lastDeliverySimMs, p.1.gossipsub.lastDeliverySimMs, p.2.1))
    (gossipForwardLeg_frame e lr _ s a)) _ _) rfl)
    | exact Eq.trans (foldl_proj (fun z =>
    (z.metrics.rlnc.lastDeliverySimMs, z.metrics.gossipsub.lastDeliverySimMs,
     z.rlncNodeDeliveryTime)) _ (fun s a => congrArg
    (fun p => (p.1.rlnc.lastDeliverySimMs, p.1.gossipsub.lastDeliverySimMs, p.2.1))
    (gossipForwardLeg_frame e lr _ s a)) _ _) rfl


theorem processRLNC_rmap (st : EngineState) (e : SimEvent) (lr : ℚ)
    (ns : List NodeInfo) :
    (processRLNC st e lr ns).1.rlncNodeDeliveryTime = st.rlncNodeDeliveryTime ∨
    ∃ k v, (processRLNC st e lr ns).1.rlncNodeDeliveryTime =
      alSet st.rlncNodeDeliveryTime k v := by
  unfold processRLNC
  dsimp only
  repeat' split
  all_goals first
    | exact Or.inl rfl
    | exact Or.inr ⟨_, _, rfl⟩
    | exact Or.inl (Eq.trans
        (foldl_proj (fun z => z.rlncNodeDeliveryTime) _ (fun s a => congrArg (fun p => p.2.1) (rlncRelayLeg_frame e lr s a)) _ _) rfl)
    | exact Or.inr ⟨_, _, Eq.trans
        (foldl_proj (fun z => z.rlncNodeDeliveryTime) _ (fun s a => congrArg (fun p => p.2.1) (rlncRelayLeg_frame e lr s a)) _ _) rfl⟩

theorem processGossip_gmap (st : EngineState) (e : SimEvent) (lr : ℚ)
    (ns : List NodeInfo) :
    (processGossip st e lr ns).1.gossipNodeDeliveryTime = st.gossipNodeDeliveryTime ∨
    ∃ k v, (processGossip st e lr ns).1.gossipNodeDeliveryTime =
      alSet st.gossipNodeDeliveryTime k v := by
  unfold processGossip
  dsimp only
  repeat' split
  all_goals first
    | exact Or.inl rfl
    | exact Or.inr ⟨_, _, rfl⟩
    | exact Or.inr ⟨_, _, Eq.trans
        (foldl_proj (fun z => z.gossipNodeDeliveryTime) _ (fun s a => congrArg (fun p => p.2.2) (gossipRetryLeg_frame e lr _ s a)) _ _)
        (Eq.trans (foldl_proj (fun z => z.gossipNodeDeliveryTime) _ (fun s a => congrArg (fun p => p.2.2) (gossipForwardLeg_frame e lr _ s a)) _ _) rfl)⟩
    | exact Or.inr ⟨_, _, Eq.trans
        (foldl_proj (fun z => z.gossipNodeDeliveryTime) _ (fun s a => congrArg (fun p => p.2.2) (gossipForwardLeg_frame e lr _ s a)) _ _) rfl⟩

theorem processRLNC_rmap_nil (st : EngineState) (e : SimEvent) (lr : ℚ)
    (ns : List NodeInfo) (h : (processRLNC st e lr ns).1.rlncNodeDeliveryTime = []) :
    st.rlncNodeDeliveryTime = [] := by
  rcases processRLNC_rmap st e lr ns with he | ⟨k, v, he⟩
  · rw [he] at h; exact h
  · rw [he] at h; exact absurd h (alSet_ne_nil _ _ _)

theorem processGossip_gmap_nil (st : EngineState) (e : SimEvent) (lr : ℚ)
    (ns : List NodeInfo) (h : (processGossip st e lr ns).1.gossipNodeDeliveryTime = []) :
    st.gossipNodeDeliveryTime = [] := by
  rcases processGossip_gmap st e lr ns with he | ⟨k, v, he⟩
  · rw [he] at h; exact h
  · rw [he] at h; exact absurd h (alSet_ne_nil _ _ _)

theorem engineStep_frame (st : EngineState) (t lr : ℚ) (ns : List NodeInfo)
    (e : SimEvent) (st' : EngineState) (ps : List AnimatedParticle)
    (hs : engineStep st t lr ns = some (e, st', ps)) :
    st'.metrics.rlnc.lastDeliverySimMs = st.metrics.rlnc.lastDeliverySimMs ∧
    st'.metrics.gossipsub.lastDeliverySimMs = st.metrics.gossipsub.lastDeliverySimMs ∧
    (st'.rlncNodeDeliveryTime = [] → st.rlncNodeDeliveryTime = []) ∧
    (st'.gossipNodeDeliveryTime = [] → st.gossipNodeDeliveryTime = []) := by
  unfold engineStep at hs
  cases hp : st.eventQueue.peek with
  | none => rw [hp] at hs; exact Option.noConfusion hs
  | some e0 =>
    rw [hp] at hs
    dsimp only at hs
    by_cases hfa : e0.fireAt ≤ t
    · rw [if_pos hfa] at hs
      cases hq : st.eventQueue.pop with
      | mk o q2 =>
        rw [hq] at hs
        cases o with
        | none => exact Option.noConfusion hs
        | some ev =>
          dsimp only at hs
          injection hs with h2
          have h4 := congrArg (fun p => p.2) h2
          dsimp only at h4
          by_cases hproto : ev.protocol = Protocol.rlnc
          · rw [if_pos hproto] at h4
            have hst' := congrArg (fun p => p.1) h4
            dsimp only at hst'
            have hfra := processRLNC_frame { st with eventQueue := q2 } ev lr ns
            simp only [Prod.mk.injEq] at hfra
            obtain ⟨ha, hb, hc⟩ := hfra
            refine ⟨?_, ?_, ?_, ?_⟩
            · rw [← hst']; exact ha
            · rw [← hst']; exact hb
            · intro h0
              exact processRLNC_rmap_nil { st with eventQueue := q2 } ev lr ns
                (by rw [hst']; exact h0)
            · intro h0
              rw [← hst', hc] at h0; exact h0
          · rw [if_neg hproto] at h4
            have hst' := congrArg (fun p => p.1) h4
            dsimp only at hst'
            have hfra := processGossip_frame { st with eventQueue := q2 } ev lr ns
            simp only [Prod.mk.injEq] at hfra
            obtain ⟨ha, hb, hc⟩ := hfra
            refine ⟨?_, ?_, ?_, ?_⟩
            · rw [← hst']; exact ha
            · rw [← hst']; exact hb
            · intro h0
              rw [← hst', hc] at h0; exact h0
            · intro h0
              exact processGossip_gmap_nil { st with eventQueue := q2 } ev lr ns
                (by rw [hst']; exact h0)
    · rw [if_neg hfa] at hs
      exact Option.noConfusion hs

theorem drainLoop_frame (f : Nat) (st : EngineState) (t lr : ℚ) (ns : List NodeInfo) :
    (drainLoop f st t lr ns).1.metrics.rlnc.lastDeliverySimMs =
      st.metrics.rlnc.lastDeliverySimMs ∧
    (drainLoop f st t lr ns).1.metrics.gossipsub.lastDeliverySimMs =
      st.metrics.gossipsub.lastDeliverySimMs ∧
    ((drainLoop f st t lr ns).1.rlncNodeDeliveryTime = [] →
      st.rlncNodeDeliveryTime = []) ∧
    ((drainLoop f st t lr ns).1.gossipNodeDeliveryTime = [] →
      st.gossipNodeDeliveryTime = []) := by
  induction f generalizing st with
  | zero => exact ⟨rfl, rfl, id, id⟩
  | succ f ih =>
    cases hs : engineStep st t lr ns with
    | none =>
      rw [drainLoop_of_none (f + 1) st t lr ns hs]
      exact ⟨rfl, rfl, id, id⟩
    | some r =>
      obtain ⟨e, st2, ps⟩ := r
      have hstep : drainLoop (f + 1) st t lr ns =
          ((drainLoop f st2 t lr ns).1,
           ps ++ (drainLoop f st2 t lr ns).2.1,
           e :: (drainLoop f st2 t lr ns).2.2) := by
        simp only [drainLoop, hs]
      rw [hstep]
      dsimp only
      obtain ⟨ia, ib, ic, id2⟩ := ih st2
      obtain ⟨sa, sb, sc, sd⟩ := engineStep_frame st t lr ns e st2 ps hs
      exact ⟨ia.trans sa, ib.trans sb, fun h0 => sc (ic h0), fun h0 => sd (id2 h0)⟩


theorem recomputeCompletion_congr (x y : EngineState)
    (h : scrub x = scrub y)
    (hr : x.rlncNodeDeliveryTime.isEmpty = true →
      x.metrics.rlnc.lastDeliverySimMs = y.metrics.rlnc.lastDeliverySimMs)
    (hg : x.gossipNodeDeliveryTime.isEmpty = true →
      x.metrics.gossipsub.lastDeliverySimMs = y.metrics.gossipsub.lastDeliverySimMs) :
    recomputeCompletion x = recomputeCompletion y := by
  obtain ⟨q1, tr1, gr1, gf1, gld1, rlr1, el1, rnd1, gnd1, rrp1, grt1, m1, sub1, pub1, k1, slr1, nds1, rg1, ri1⟩ := x
  obtain ⟨q2, tr2, gr2, gf2, gld2, rlr2, el2, rnd2, gnd2, rrp2, grt2, m2, sub2, pub2, k2, slr2, nds2, rg2, ri2⟩ := y
  obtain ⟨mr1, mg1⟩ := m1
  obtain ⟨mr2, mg2⟩ := m2
  obtain ⟨rt1, ru1, rd1, rl1, ra1⟩ := mr1
  obtain ⟨rt2, ru2, rd2, rl2, ra2⟩ := mr2
  obtain ⟨gt1, gu1, gdup1, gd1, gl1, ga1⟩ := mg1
  obtain ⟨gt2, gu2, gdup2, gd2, gl2, ga2⟩ := mg2
  simp only [scrub, EngineState.mk.injEq, EngineMetrics.mk.injEq,
    RlncMetrics.mk.injEq, GossipMetrics.mk.injEq, and_true, true_and] at h
  obtain ⟨hq, htr, hgr, hgf, hgld, hrlr, hel, hrnd, hgnd, hrrp, hgrt,
    ⟨⟨hrt, hru, hrd⟩, ⟨hgt, hgu, hgdup, hgd⟩⟩, hsub, hpub, hk, hslr, hnds, hrg, hri⟩ := h
  subst hq htr hgr hgf hgld hrlr hel hrnd hgnd hrrp hgrt hrt hru hrd hgt hgu hgdup hgd
  subst hsub hpub hk hslr hnds hrg hri
  dsimp only at hr hg
  unfold recomputeCompletion
  dsimp only
  by_cases her : rnd1.isEmpty
  · rw [if_pos her, if_pos her, hr her]
    by_cases heg : gnd1.isEmpty
    · rw [if_pos heg, if_pos heg, hg heg]
    · rw [if_neg heg, if_neg heg]
  · rw [if_neg her, if_neg her]
    by_cases heg : gnd1.isEmpty
    · rw [if_pos heg, if_pos heg, hg heg]
    · rw [if_neg heg, if_neg heg]


theorem engineStep_none_queue (x y : EngineState) (t lr : ℚ) (ns : List NodeInfo)
    (hq : x.eventQueue = y.eventQueue) (h : engineStep x t lr ns = none) :
    engineStep y t lr ns = none := by
  unfold engineStep at h ⊢
  rw [← hq]
  cases hp : x.eventQueue.peek with
  | none => rfl
  | some e0 =>
    rw [hp] at h
    dsimp only at h ⊢
    by_cases hfa : e0.fireAt ≤ t
    · rw [if_pos hfa] at h ⊢
      cases hpop : x.eventQueue.pop with
      | mk o q2 =>
        rw [hpop] at h
        cases o with
        | none => rfl
        | some ev => exact Option.noConfusion h
    · rw [if_neg hfa]

theorem recomputeCompletion_rmap (z : EngineState) :
    (recomputeCompletion z).rlncNodeDeliveryTime = z.rlncNodeDeliveryTime := rfl

theorem recomputeCompletion_gmap (z : EngineState) :
    (recomputeCompletion z).gossipNodeDeliveryTime = z.gossipNodeDeliveryTime := rfl

theorem recomputeCompletion_queue (z : EngineState) :
    (recomputeCompletion z).eventQueue = z.eventQueue := rfl

theorem recompute_last_rlnc_of_nil (z : EngineState) (h : z.rlncNodeDeliveryTime = []) :
    (recomputeCompletion z).metrics.rlnc.lastDeliverySimMs =
      z.metrics.rlnc.lastDeliverySimMs := by
  unfold recomputeCompletion
  dsimp only
  rw [h]
  rfl

theorem recompute_last_gossip_of_nil (z : EngineState) (h : z.gossipNodeDeliveryTime = []) :
    (recomputeCompletion z).metrics.gossipsub.lastDeliverySimMs =
      z.metrics.gossipsub.lastDeliverySimMs := by
  unfold recomputeCompletion
  dsimp only
  rw [h]
  rfl


theorem list_isEmpty_nil {α : Type} (l : List α) (h : l.isEmpty = true) : l = [] := by
  cases l with
  | nil => rfl
  | cons a as => exact Bool.noConfusion h

/-- Core of C8: with enough fuel on each call, draining to `t1 ≤ t2`,
recomputing completion, and draining on to `t2` yields the same final state,
particles and processed-event trace as a single drain to `t2`. -/
theorem advance_split_core (f1 f2 f3 : Nat) (st : EngineState) (t1 t2 lr : ℚ)
    (ns : List NodeInfo) (h12 : t1 ≤ t2)
    (h1 : engineStep (drainLoop f1 st t1 lr ns).1 t1 lr ns = none)
    (h2 : engineStep (drainLoop f2 (recomputeCompletion (drainLoop f1 st t1 lr ns).1) t2 lr ns).1 t2 lr ns = none)
    (h3 : engineStep (drainLoop f3 st t2 lr ns).1 t2 lr ns = none) :
    recomputeCompletion (drainLoop f2 (recomputeCompletion (drainLoop f1 st t1 lr ns).1) t2 lr ns).1 =
      recomputeCompletion (drainLoop f3 st t2 lr ns).1 ∧
    (drainLoop f3 st t2 lr ns).2.1 =
      (drainLoop f1 st t1 lr ns).2.1 ++
        (drainLoop f2 (recomputeCompletion (drainLoop f1 st t1 lr ns).1) t2 lr ns).2.1 ∧
    (drainLoop f3 st t2 lr ns).2.2 =
      (drainLoop f1 st t1 lr ns).2.2 ++
        (drainLoop f2 (recomputeCompletion (drainLoop f1 st t1 lr ns).1) t2 lr ns).2.2 := by
  set A := drainLoop f1 st t1 lr ns with hA
  set B := drainLoop f2 (recomputeCompletion A.1) t2 lr ns with hB
  set B2 := drainLoop f2 A.1 t2 lr ns with hB2
  set C := drainLoop f3 st t2 lr ns with hC
  have hscB := scrub_drainLoop f2 (recomputeCompletion A.1) t2 lr ns
  rw [scrub_recomputeCompletion, ← hB] at hscB
  have hscB2 := scrub_drainLoop f2 A.1 t2 lr ns
  rw [← hB2] at hscB2
  have hBB2 : (scrub B.1, B.2.1, B.2.2) = (scrub B2.1, B2.2.1, B2.2.2) :=
    hscB.symm.trans hscB2
  have hsc : scrub B.1 = scrub B2.1 := congrArg (fun p => p.1) hBB2
  have hp2 : B.2.1 = B2.2.1 := congrArg (fun p => p.2.1) hBB2
  have he2 : B.2.2 = B2.2.2 := congrArg (fun p => p.2.2) hBB2
  have hmapB := scrub_engineStep B.1 t2 lr ns
  have hmapB2 := scrub_engineStep B2.1 t2 lr ns
  rw [hsc] at hmapB
  have hmm := hmapB.symm.trans hmapB2
  rw [h2] at hmm
  dsimp only [Option.map] at hmm
  have hB2q : engineStep B2.1 t2 lr ns = none := by
    cases hcb : engineStep B2.1 t2 lr ns with
    | none => rfl
    | some r => rw [hcb] at hmm; exact Option.noConfusion hmm
  have hsplit : C = (B2.1, A.2.1 ++ B2.2.1, A.2.2 ++ B2.2.2) := by
    rw [hC, hB2, hA]
    exact drainLoop_split f1 f2 f3 st t1 t2 lr ns h12 h1 hB2q h3
  have hfB := drainLoop_frame f2 (recomputeCompletion A.1) t2 lr ns
  rw [← hB] at hfB
  obtain ⟨ba, bb, bc, bd⟩ := hfB
  have hfB2 := drainLoop_frame f2 A.1 t2 lr ns
  rw [← hB2] at hfB2
  obtain ⟨ca, cb, cc, cd⟩ := hfB2
  have hr : B.1.rlncNodeDeliveryTime.isEmpty = true →
      B.1.metrics.rlnc.lastDeliverySimMs = B2.1.metrics.rlnc.lastDeliverySimMs := by
    intro hre
    have hnil := list_isEmpty_nil _ hre
    have hAnil : A.1.rlncNodeDeliveryTime = [] := by
      have hx := bc hnil
      rw [recomputeCompletion_rmap] at hx
      exact hx
    calc B.1.metrics.rlnc.lastDeliverySimMs
        = (recomputeCompletion A.1).metrics.rlnc.lastDeliverySimMs := ba
      _ = A.1.metrics.rlnc.lastDeliverySimMs := recompute_last_rlnc_of_nil A.1 hAnil
      _ = B2.1.metrics.rlnc.lastDeliverySimMs := ca.symm
  have hg : B.1.gossipNodeDeliveryTime.isEmpty = true →
      B.1.metrics.gossipsub.lastDeliverySimMs = B2.1.metrics.gossipsub.lastDeliverySimMs := by
    intro hre
    have hnil := list_isEmpty_nil _ hre
    have hAnil : A.1.gossipNodeDeliveryTime = [] := by
      have hx := bd hnil
      rw [recomputeCompletion_gmap] at hx
      exact hx
    calc B.1.metrics.gossipsub.lastDeliverySimMs
        = (recomputeCompletion A.1).metrics.gossipsub.lastDeliverySimMs := bb
      _ = A.1.metrics.gossipsub.lastDeliverySimMs := recompute_last_gossip_of_nil A.1 hAnil
      _ = B2.1.metrics.gossipsub.lastDeliverySimMs := cb.symm
  have hcongr := recomputeCompletion_congr B.1 B2.1 hsc hr hg
  have hC1 : C.1 = B2.1 := by rw [hsplit]
  refine ⟨?_, ?_, ?_⟩
  · rw [hC1]; exact hcongr
  · rw [hsplit, ← hp2]
  · rw [hsplit, ← he2]


theorem pushAll_append (q : MinHeap) (e1 e2 : List SimEvent) :
    pushAll (pushAll q e1) e2 = pushAll q (e1 ++ e2) :=
  (List.foldl_append MinHeap.push q e1 e2).symm

theorem qreach_trans {q1 q2 q3 : MinHeap} (h1 : ∃ es, q2 = pushAll q1 es)
    (h2 : ∃ es, q3 = pushAll q2 es) : ∃ es, q3 = pushAll q1 es := by
  obtain ⟨a, ha⟩ := h1
  obtain ⟨b, hb⟩ := h2
  exact ⟨a ++ b, by rw [hb, ha, pushAll_append]⟩

theorem qreach_foldl {α : Type} (f : EngineState → α → EngineState) (l : List α)
    (hstep : ∀ s a, ∃ es, (f s a).eventQueue = pushAll s.eventQueue es) :
    ∀ s, ∃ es, (l.foldl f s).eventQueue = pushAll s.eventQueue es := by
  induction l with
  | nil => intro s; exact ⟨[], rfl⟩
  | cons a as ih =>
    intro s
    rw [List.foldl_cons]
    exact qreach_trans (hstep s a) (ih (f s a))

theorem push_fresh (q : MinHeap) (ev : SimEvent) (s : Nat) (h1 : s < q.seqCounter)
    (h2 : s ∉ q.heap.map SimEvent.seq) :
    s < (q.push ev).seqCounter ∧ s ∉ (q.push ev).heap.map SimEvent.seq := by
  constructor
  · show s < q.seqCounter + 1
    omega
  · intro hmem
    have hp := (push_perm q ev).map SimEvent.seq
    have hmem2 := hp.mem_iff.mp hmem
    simp only [List.map_cons] at hmem2
    rcases List.mem_cons.mp hmem2 with hx | hx
    · omega
    · exact h2 hx

theorem pushAll_WF (q : MinHeap) (es : List SimEvent) (h : q.WF) : (pushAll q es).WF :=
  (pushAll_spec es q h).1

theorem pushAll_fresh (es : List SimEvent) (q : MinHeap) (s : Nat)
    (h1 : s < q.seqCounter) (h2 : s ∉ q.heap.map SimEvent.seq) :
    s < (pushAll q es).seqCounter ∧ s ∉ (pushAll q es).heap.map SimEvent.seq := by
  induction es generalizing q with
  | nil => exact ⟨h1, h2⟩
  | cons e es ih =>
    obtain ⟨g1, g2⟩ := push_fresh q e s h1 h2
    exact ih (q.push e) g1 g2

theorem qreach_pushEvent (z : EngineState) (ev : SimEvent) (q : MinHeap)
    (h : z.eventQueue = q) :
    ∃ es, (pushEvent z ev).eventQueue = pushAll q es := by
  refine ⟨[ev], ?_⟩
  show z.eventQueue.push ev = _
  rw [h]
  rfl

theorem rlncRelayLeg_qreach (e : SimEvent) (lr : ℚ) (st : EngineState) (n : String) :
    ∃ es, (rlncRelayLeg e lr st n).eventQueue = pushAll st.eventQueue es := by
  unfold rlncRelayLeg
  dsimp only
  repeat' split
  all_goals first
    | (refine qreach_foldl _ _ ?_ _
       intro c a
       exact qreach_pushEvent _ _ _ (by rw [drawVector_snd]; rfl))
    | (refine ⟨[], ?_⟩
       rfl)

theorem gossipForwardLeg_qreach (e : SimEvent) (lr d : ℚ) (st : EngineState) (n : String) :
    ∃ es, (gossipForwardLeg e lr d st n).eventQueue = pushAll st.eventQueue es := by
  unfold gossipForwardLeg
  dsimp only
  repeat' split
  all_goals first
    | exact qreach_pushEvent _ _ _ rfl
    | (refine ⟨[], ?_⟩
       rfl)

theorem gossipRetryLeg_qreach (e : SimEvent) (lr d : ℚ) (st : EngineState) (n : String) :
    ∃ es, (gossipRetryLeg e lr d st n).eventQueue = pushAll st.eventQueue es := by
  unfold gossipRetryLeg
  dsimp only
  repeat' split
  all_goals first
    | exact qreach_pushEvent _ _ _ rfl
    | (refine ⟨[], ?_⟩
       rfl)

theorem processRLNC_qreach (st : EngineState) (e : SimEvent) (lr : ℚ)
    (ns : List NodeInfo) :
    ∃ es, (processRLNC st e lr ns).1.eventQueue = pushAll st.eventQueue es := by
  unfold processRLNC
  dsimp only
  repeat' split
  all_goals first
    | exact qreach_foldl _ _ (fun s a => rlncRelayLeg_qreach e lr s a) _
    | (refine ⟨[], ?_⟩
       rfl)

theorem qreach_retryFwd (e : SimEvent) (lr d : ℚ) (ns ms : List String)
    (x : EngineState) (w : List (String × Nat)) :
    ∃ es, (ms.foldl (gossipRetryLeg e lr d)
        { ns.foldl (gossipForwardLeg e lr d) x with gossipRetries := w }).eventQueue
      = pushAll x.eventQueue es :=
  @qreach_trans x.eventQueue ((ns.foldl (gossipForwardLeg e lr d) x).eventQueue) _
    (qreach_foldl _ _ (fun s a => gossipForwardLeg_qreach e lr d s a) x)
    (qreach_foldl _ _ (fun s a => gossipRetryLeg_qreach e lr d s a)
      { ns.foldl (gossipForwardLeg e lr d) x with gossipRetries := w })

theorem processGossip_qreach (st : EngineState) (e : SimEvent) (lr : ℚ)
    (ns : List NodeInfo) :
    ∃ es, (processGossip st e lr ns).1.eventQueue = pushAll st.eventQueue es := by
  unfold processGossip
  dsimp only
  repeat' split
  all_goals first
    | exact qreach_retryFwd e lr _ _ _ _ _
    | exact qreach_foldl _ _ (fun s a => gossipForwardLeg_qreach e lr _ s a) _
    | (refine ⟨[], ?_⟩
       rfl)


theorem engineStep_queue_spec (st : EngineState) (t lr : ℚ) (ns : List NodeInfo)
    (e : SimEvent) (st' : EngineState) (ps : List AnimatedParticle)
    (hW : st.eventQueue.WF)
    (hs : engineStep st t lr ns = some (e, st', ps)) :
    e.fireAt ≤ t ∧
    e.seq ∈ st.eventQueue.heap.map SimEvent.seq ∧
    st'.eventQueue.WF ∧
    e.seq < st'.eventQueue.seqCounter ∧
    e.seq ∉ st'.eventQueue.heap.map SimEvent.seq ∧
    (∀ s, s < st.eventQueue.seqCounter → s ∉ st.eventQueue.heap.map SimEvent.seq →
      s < st'.eventQueue.seqCounter ∧ s ∉ st'.eventQueue.heap.map SimEvent.seq) := by
  unfold engineStep at hs
  cases hp : st.eventQueue.peek with
  | none => rw [hp] at hs; exact Option.noConfusion hs
  | some e0 =>
    rw [hp] at hs
    dsimp only at hs
    by_cases hfa : e0.fireAt ≤ t
    · rw [if_pos hfa] at hs
      have hne : st.eventQueue.heap ≠ [] := by
        intro h0
        unfold MinHeap.peek at hp
        rw [h0] at hp
        exact Option.noConfusion hp
      obtain ⟨h', hpop, hperm, hcnt, hheap⟩ := pop_nonempty_spec st.eventQueue hne
      rw [hpop] at hs
      dsimp only at hs
      injection hs with h2
      have hev : nth st.eventQueue.heap 0 = e0 := by
        unfold MinHeap.peek at hp
        cases hl : st.eventQueue.heap with
        | nil => exact absurd hl hne
        | cons a as =>
          rw [hl] at hp
          simp only [List.head?_cons, Option.some.injEq] at hp
          exact hp
      have he : nth st.eventQueue.heap 0 = e := congrArg (fun p => p.1) h2
      have h4 := congrArg (fun p => p.2) h2
      dsimp only at h4
      have hq'wf : h'.WF := by
        have hx := pop_WF st.eventQueue hW
        rw [hpop] at hx
        exact hx
      have hmap := hperm.map SimEvent.seq
      have hmem : e.seq ∈ st.eventQueue.heap.map SimEvent.seq := by
        refine List.mem_map.mpr ⟨e, ?_, rfl⟩
        rw [← he]
        exact hperm.mem_iff.mpr (List.mem_cons_self _ _)
      have hnodup := hW.2.2
      have hfresh' : e.seq ∉ h'.heap.map SimEvent.seq := by
        have hn2 := hmap.nodup_iff.mp hnodup
        simp only [List.map_cons] at hn2
        rw [he] at hn2
        exact (List.nodup_cons.mp hn2).1
      have hlt' : e.seq < h'.seqCounter := by
        rw [hcnt]
        refine hW.2.1 e ?_
        rw [← he]
        exact hperm.mem_iff.mpr (List.mem_cons_self _ _)
      have htrans : ∀ s, s < st.eventQueue.seqCounter →
          s ∉ st.eventQueue.heap.map SimEvent.seq →
          s < h'.seqCounter ∧ s ∉ h'.heap.map SimEvent.seq := by
        intro s hs1 hs2
        refine ⟨by rw [hcnt]; exact hs1, ?_⟩
        intro hx
        refine hs2 (hmap.mem_iff.mpr ?_)
        simp only [List.map_cons]
        exact List.mem_cons_of_mem _ hx
      have hqr : ∃ es, st'.eventQueue = pushAll h' es := by
        by_cases hpr : (nth st.eventQueue.heap 0).protocol = Protocol.rlnc
        · rw [if_pos hpr] at h4
          have hst' : (processRLNC { st with eventQueue := h' }
              (nth st.eventQueue.heap 0) lr ns).1 = st' := congrArg (fun p => p.1) h4
          rw [← hst']
          exact processRLNC_qreach _ _ lr ns
        · rw [if_neg hpr] at h4
          have hst' : (processGossip { st with eventQueue := h' }
              (nth st.eventQueue.heap 0) lr ns).1 = st' := congrArg (fun p => p.1) h4
          rw [← hst']
          exact processGossip_qreach _ _ lr ns
      obtain ⟨es, hes⟩ := hqr
      refine ⟨?_, hmem, ?_, ?_, ?_, ?_⟩
      · rw [← he, hev]
        exact hfa
      · rw [hes]
        exact pushAll_WF h' es hq'wf
      · rw [hes]
        exact (pushAll_fresh es h' e.seq hlt' hfresh').1
      · rw [hes]
        exact (pushAll_fresh es h' e.seq hlt' hfresh').2
      · intro s hs1 hs2
        obtain ⟨g1, g2⟩ := htrans s hs1 hs2
        rw [hes]
        exact pushAll_fresh es h' s g1 g2
    · rw [if_neg hfa] at hs
      exact Option.noConfusion hs


theorem seedRlncBurstShard_qreach (p : String) (nb : List String) (k s0 : Nat)
    (st : EngineState) :
    ∃ es, (seedRlncBurstShard p nb k s0 st).eventQueue = pushAll st.eventQueue es := by
  unfold seedRlncBurstShard
  dsimp only
  refine @qreach_trans st.eventQueue ((drawVector st k).2.eventQueue) _
    ⟨[], by rw [drawVector_snd]; rfl⟩ ?_
  refine qreach_foldl _ _ ?_ _
  intro c a
  dsimp only
  split
  all_goals first
    | exact qreach_pushEvent _ _ _ rfl
    | (refine ⟨[], ?_⟩
       rfl)

theorem seedGossipFirstRound_qreach (p : String) (nb : List String) (st : EngineState) :
    ∃ es, (seedGossipFirstRound p nb st).eventQueue = pushAll st.eventQueue es := by
  unfold seedGossipFirstRound
  refine qreach_foldl _ _ ?_ _
  intro c a
  dsimp only
  split
  all_goals first
    | exact qreach_pushEvent _ _ _ rfl
    | (refine ⟨[], ?_⟩
       rfl)

theorem seedGossipRetries_qreach (p : String) (nb : List String) (st : EngineState) :
    ∃ es, (seedGossipRetries p nb st).eventQueue = pushAll st.eventQueue es := by
  unfold seedGossipRetries
  refine qreach_foldl _ _ ?_ _
  intro c r
  dsimp only
  refine qreach_foldl _ _ ?_ _
  intro c2 a2
  dsimp only
  split
  all_goals first
    | exact qreach_pushEvent _ _ _ rfl
    | (refine ⟨[], ?_⟩
       rfl)

theorem seedResendRounds_qreach (p : String) (nb : List String) (k : Nat)
    (st : EngineState) :
    ∃ es, (seedResendRounds p nb k st).eventQueue = pushAll st.eventQueue es := by
  unfold seedResendRounds
  refine qreach_foldl _ _ ?_ _
  intro c r
  dsimp only
  refine qreach_trans (qreach_foldl _ _ ?_ c) (qreach_foldl _ _ ?_ _)
  · intro c2 a2
    dsimp only
    refine qreach_trans (⟨[], ?_⟩ : ∃ es, (drawVector c2 k).2.eventQueue = pushAll c2.eventQueue es)
      (qreach_foldl _ _ ?_ _)
    · rw [drawVector_snd]
      rfl
    · intro c3 a3
      dsimp only
      split
      all_goals first
        | exact qreach_pushEvent _ _ _ rfl
        | (refine ⟨[], ?_⟩
           rfl)
  · intro c2 a2
    dsimp only
    split
    all_goals first
      | exact qreach_pushEvent _ _ _ rfl
      | (refine ⟨[], ?_⟩
         rfl)


theorem initPropagation_WF (st0 : EngineState) (p : InitParams) :
    (initPropagation st0 p).eventQueue.WF := by
  unfold initPropagation
  dsimp only
  split
  · exact empty_WF
  · obtain ⟨es, hq⟩ := qreach_trans (qreach_trans (qreach_trans
      (qreach_foldl _ _ (fun s a => seedRlncBurstShard_qreach _ _ _ _ s) _)
      (seedGossipFirstRound_qreach _ _ _))
      (seedGossipRetries_qreach _ _ _))
      (seedResendRounds_qreach _ _ _ _)
    rw [hq]
    exact pushAll_WF _ es empty_WF

/-- Drained traces: starting from a well-formed queue, the processed events
have pairwise distinct `seq` stamps, no externally fresh `seq` is ever
processed, and every processed event is due at the requested time. -/
theorem drain_trace (f : Nat) (st : EngineState) (t lr : ℚ) (ns : List NodeInfo)
    (hW : st.eventQueue.WF) (S : List Nat)
    (hS : ∀ s ∈ S, s < st.eventQueue.seqCounter ∧
      s ∉ st.eventQueue.heap.map SimEvent.seq) :
    ((drainLoop f st t lr ns).2.2.map SimEvent.seq).Nodup ∧
    (∀ s ∈ S, s ∉ (drainLoop f st t lr ns).2.2.map SimEvent.seq) ∧
    (∀ a ∈ (drainLoop f st t lr ns).2.2, a.fireAt ≤ t) := by
  induction f generalizing st S with
  | zero =>
    exact ⟨List.nodup_nil, fun s _ hx => absurd hx (List.not_mem_nil _),
      fun a hx => absurd hx (List.not_mem_nil _)⟩
  | succ f ih =>
    cases hs : engineStep st t lr ns with
    | none =>
      rw [drainLoop_of_none (f + 1) st t lr ns hs]
      exact ⟨List.nodup_nil, fun s _ hx => absurd hx (List.not_mem_nil _),
        fun a hx => absurd hx (List.not_mem_nil _)⟩
    | some r =>
      obtain ⟨e, st2, ps⟩ := r
      have hstep : drainLoop (f + 1) st t lr ns =
          ((drainLoop f st2 t lr ns).1,
           ps ++ (drainLoop f st2 t lr ns).2.1,
           e :: (drainLoop f st2 t lr ns).2.2) := by
        simp only [drainLoop, hs]
      rw [hstep]
      dsimp only
      obtain ⟨hfa, hmem, hW2, hlt, hnin, htr⟩ :=
        engineStep_queue_spec st t lr ns e st2 ps hW hs
      have hS2 : ∀ s ∈ (e.seq :: S), s < st2.eventQueue.seqCounter ∧
          s ∉ st2.eventQueue.heap.map SimEvent.seq := by
        intro s hsm
        rcases List.mem_cons.mp hsm with h0 | h0
        · rw [h0]; exact ⟨hlt, hnin⟩
        · obtain ⟨g1, g2⟩ := hS s h0
          exact htr s g1 g2
      obtain ⟨n1, n2, n3⟩ := ih st2 hW2 (e.seq :: S) hS2
      refine ⟨?_, ?_, ?_⟩
      · simp only [List.map_cons]
        exact List.nodup_cons.mpr ⟨n2 e.seq (List.mem_cons_self _ _), n1⟩
      · intro s hsm
        simp only [List.map_cons]
        intro hx
        rcases List.mem_cons.mp hx with h0 | h0
        · obtain ⟨g1, g2⟩ := hS s hsm
          rw [h0] at g2
          exact g2 hmem
        · exact n2 s (List.mem_cons_of_mem _ hsm) h0
      · intro a hax
        rcases List.mem_cons.mp hax with h0 | h0
        · rw [h0]; exact hfa
        · exact n3 a h0


/-- C8: for an initialized engine and `t1 ≤ t2`, calling `advanceTo t1` and
then `advanceTo t2` (same packetLoss and nodes, each call given enough fuel to
drain its due events) produces exactly the same final engine state and metrics
snapshot as a single `advanceTo t2`, the two calls' particles and processed
events concatenate to the single call's, no event is processed twice, and no
event fires later than the requested time (the first call processes only
events due by `t1`). -/
theorem C8_advanceTo_split (rng : Nat → ℚ) (params : InitParams)
    (t1 t2 p : ℚ) (ns : List NodeInfo) (f1 f2 f3 : Nat)
    (h12 : t1 ≤ t2)
    (hq1 : engineStep (advanceTo f1 (initPropagation (EngineState.fresh rng) params) t1 p ns).1 t1 (p / 100) ns = none)
    (hq2 : engineStep (advanceTo f2 (advanceTo f1 (initPropagation (EngineState.fresh rng) params) t1 p ns).1 t2 p ns).1 t2 (p / 100) ns = none)
    (hq3 : engineStep (advanceTo f3 (initPropagation (EngineState.fresh rng) params) t2 p ns).1 t2 (p / 100) ns = none) :
    (advanceTo f2 (advanceTo f1 (initPropagation (EngineState.fresh rng) params) t1 p ns).1 t2 p ns).1 =
      (advanceTo f3 (initPropagation (EngineState.fresh rng) params) t2 p ns).1 ∧
    (advanceTo f2 (advanceTo f1 (initPropagation (EngineState.fresh rng) params) t1 p ns).1 t2 p ns).2.2 =
      (advanceTo f3 (initPropagation (EngineState.fresh rng) params) t2 p ns).2.2 ∧
    (advanceTo f1 (initPropagation (EngineState.fresh rng) params) t1 p ns).2.1 ++
        (advanceTo f2 (advanceTo f1 (initPropagation (EngineState.fresh rng) params) t1 p ns).1 t2 p ns).2.1 =
      (advanceTo f3 (initPropagation (EngineState.fresh rng) params) t2 p ns).2.1 ∧
    (drainLoop f1 (initPropagation (EngineState.fresh rng) params) t1 (p / 100) ns).2.2 ++
        (drainLoop f2 (advanceTo f1 (initPropagation (EngineState.fresh rng) params) t1 p ns).1 t2 (p / 100) ns).2.2 =
      (drainLoop f3 (initPropagation (EngineState.fresh rng) params) t2 (p / 100) ns).2.2 ∧
    ((drainLoop f1 (initPropagation (EngineState.fresh rng) params) t1 (p / 100) ns).2.2 ++
        (drainLoop f2 (advanceTo f1 (initPropagation (EngineState.fresh rng) params) t1 p ns).1 t2 (p / 100) ns).2.2).Nodup ∧
    (∀ a ∈ (drainLoop f3 (initPropagation (EngineState.fresh rng) params) t2 (p / 100) ns).2.2, a.fireAt ≤ t2) ∧
    (∀ a ∈ (drainLoop f1 (initPropagation (EngineState.fresh rng) params) t1 (p / 100) ns).2.2, a.fireAt ≤ t1) := by
  have hA1 : engineStep (drainLoop f1 (initPropagation (EngineState.fresh rng) params) t1 (p / 100) ns).1 t1 (p / 100) ns = none :=
    engineStep_none_queue _ _ t1 (p / 100) ns
      (recomputeCompletion_queue (drainLoop f1 (initPropagation (EngineState.fresh rng) params) t1 (p / 100) ns).1) hq1
  have hB1 : engineStep (drainLoop f2 (recomputeCompletion (drainLoop f1 (initPropagation (EngineState.fresh rng) params) t1 (p / 100) ns).1) t2 (p / 100) ns).1 t2 (p / 100) ns = none :=
    engineStep_none_queue _ _ t2 (p / 100) ns
      (recomputeCompletion_queue (drainLoop f2 (recomputeCompletion (drainLoop f1 (initPropagation (EngineState.fresh rng) params) t1 (p / 100) ns).1) t2 (p / 100) ns).1) hq2
  have hC1 : engineStep (drainLoop f3 (initPropagation (EngineState.fresh rng) params) t2 (p / 100) ns).1 t2 (p / 100) ns = none :=
    engineStep_none_queue _ _ t2 (p / 100) ns
      (recomputeCompletion_queue (drainLoop f3 (initPropagation (EngineState.fresh rng) params) t2 (p / 100) ns).1) hq3
  obtain ⟨hc1, hc2, hc3⟩ := advance_split_core f1 f2 f3
    (initPropagation (EngineState.fresh rng) params) t1 t2 (p / 100) ns h12 hA1 hB1 hC1
  have hWF := initPropagation_WF (EngineState.fresh rng) params
  obtain ⟨nd3, _, hle3⟩ := drain_trace f3 (initPropagation (EngineState.fresh rng) params)
    t2 (p / 100) ns hWF [] (fun s hx => absurd hx (List.not_mem_nil _))
  obtain ⟨nd1, _, hle1⟩ := drain_trace f1 (initPropagation (EngineState.fresh rng) params)
    t1 (p / 100) ns hWF [] (fun s hx => absurd hx (List.not_mem_nil _))
  refine ⟨hc1, congrArg (fun z => z.metrics) hc1, hc2.symm, hc3.symm, ?_, hle3, hle1⟩
  show ((drainLoop f1 (initPropagation (EngineState.fresh rng) params) t1 (p / 100) ns).2.2 ++
      (drainLoop f2 (recomputeCompletion (drainLoop f1 (initPropagation (EngineState.fresh rng) params) t1 (p / 100) ns).1) t2 (p / 100) ns).2.2).Nodup
  rw [← hc3]
  exact List.Nodup.of_map SimEvent.seq nd3


theorem C8_advanceTo_split_witness :
    (0 : ℚ) ≤ 1 ∧
    (advanceTo 0 (advanceTo 0 (initPropagation (EngineState.fresh zeroRng) soloParams) 0 0 []).1 1 0 []).1 =
      (advanceTo 0 (initPropagation (EngineState.fresh zeroRng) soloParams) 1 0 []).1 :=
  ⟨by norm_num,
   (C8_advanceTo_split zeroRng soloParams 0 1 0 [] 0 0 0 (by norm_num)
      (by with_unfolding_all rfl) (by with_unfolding_all rfl)
      (by with_unfolding_all rfl)).1⟩


/-! ### C6: the metrics snapshot returned by `advanceTo`/`getEngineMetrics`

`advanceTo` and `getEngineMetrics` return `{ ...metrics }` (src/unnamed/part_003).
The JS spread operator allocates a fresh top-level object but copies the
nested `rlnc`/`gossipsub` object references unchanged. We model the relevant
JS object graph with an explicit heap: addresses for `EngineMetrics` objects
(holding references to their nested records) and for the nested
`RlncMetrics`/`GossipMetrics` records. -/

def aGet {α : Type} (m : List (Nat × α)) (k : Nat) : Option α :=
  (m.find? (fun p => p.1 == k)).map (fun p => p.2)

def aSet {α : Type} (m : List (Nat × α)) (k : Nat) (v : α) : List (Nat × α) :=
  if m.any (fun p => p.1 == k) then
    m.map (fun p => if p.1 == k then (k, v) else p)
  else m ++ [(k, v)]

/-- A JS `EngineMetrics` object: references to its nested records. -/
structure EMRef where
  rlnc : Nat
  gossipsub : Nat
  deriving Repr, DecidableEq

/-- The JS object graph for metrics objects. -/
structure JsHeap where
  emObjs : List (Nat × EMRef)
  rlncObjs : List (Nat × RlncMetrics)
  gossipObjs : List (Nat × GossipMetrics)
  nextAddr : Nat
  deriving Repr, DecidableEq

/-- `{ ...metrics }`: allocate a fresh top-level object whose `rlnc` and
`gossipsub` fields copy the references stored in the source object. -/
def spreadEM (h : JsHeap) (src : Nat) : Option (Nat × JsHeap) :=
  match aGet h.emObjs src with
  | none => none
  | some r =>
    some (h.nextAddr,
      { h with emObjs := aSet h.emObjs h.nextAddr ⟨r.rlnc, r.gossipsub⟩, nextAddr := h.nextAddr + 1 })

/-- Read `em.rlnc.allDone` through the references. -/
def readRlncAllDone (h : JsHeap) (em : Nat) : Option Bool :=
  match aGet h.emObjs em with
  | none => none
  | some r => (aGet h.rlncObjs r.rlnc).map (fun m => m.allDone)

/-- `em.rlnc.allDone = b`: a write through the nested reference. -/
def writeRlncAllDone (h : JsHeap) (em : Nat) (b : Bool) : Option JsHeap :=
  match aGet h.emObjs em with
  | none => none
  | some r =>
    match aGet h.rlncObjs r.rlnc with
    | none => none
    | some m =>
      some { h with rlncObjs := aSet h.rlncObjs r.rlnc { m with allDone := b } }

/-- `em.rlnc = (reference a)`: reassign the object's own top-level field. -/
def writeRlncField (h : JsHeap) (em : Nat) (a : Nat) : Option JsHeap :=
  match aGet h.emObjs em with
  | none => none
  | some r => some { h with emObjs := aSet h.emObjs em ⟨a, r.gossipsub⟩ }

/-- The engine's metrics graph right after `initPropagation`: the engine-held
`EngineMetrics` object at address 0, its nested records at 1 and 2. -/
def c6Rlnc : RlncMetrics :=
  { totalTransmissions := 0, usefulTransmissions := 0, deliveredNodes := [],
    lastDeliverySimMs := none, allDone := false }

def c6Gossip : GossipMetrics :=
  { totalTransmissions := 0, usefulTransmissions := 0, duplicates := 0,
    deliveredNodes := [], lastDeliverySimMs := none, allDone := false }

def c6Heap : JsHeap :=
  { emObjs := [(0, ⟨1, 2⟩)],
    rlncObjs := [(1, c6Rlnc)],
    gossipObjs := [(2, c6Gossip)],
    nextAddr := 3 }

theorem find?_upd_map_nat {α : Type} (m : List (Nat × α)) (k k' : Nat) (v : α)
    (h : k ≠ k') :
    (m.map (fun p => if p.1 == k then (k, v) else p)).find? (fun p => p.1 == k') =
      m.find? (fun p => p.1 == k') := by
  induction m with
  | nil => rfl
  | cons p rest ih =>
    by_cases hp : p.1 = k
    · have h1 : (if (p.1 == k) = true then (k, v) else p) = (k, v) := by simp [hp]
      have hc1 : ((k, v).1 == k') = false := by simpa using h
      have hc2 : (p.1 == k') = false := by
        rw [hp]
        simpa using h
      rw [List.map_cons, h1]
      simp only [List.find?_cons, hc1, hc2]
      exact ih
    · have h1 : (if (p.1 == k) = true then (k, v) else p) = p := by simp [hp]
      rw [List.map_cons, h1]
      by_cases hk : p.1 = k'
      · have hc : (p.1 == k') = true := by simpa using hk
        simp only [List.find?_cons, hc]
      · have hc : (p.1 == k') = false := by simpa using hk
        simp only [List.find?_cons, hc]
        exact ih

theorem find?_append_single_nat {α : Type} (m : List (Nat × α)) (k k' : Nat) (v : α)
    (h : k ≠ k') :
    (m ++ [(k, v)]).find? (fun p => p.1 == k') = m.find? (fun p => p.1 == k') := by
  induction m with
  | nil =>
    have hc : ((k, v).1 == k') = false := by simpa using h
    simp only [List.nil_append, List.find?_cons, hc]
  | cons p rest ih =>
    by_cases hk : p.1 = k'
    · have hc : (p.1 == k') = true := by simpa using hk
      simp only [List.cons_append, List.find?_cons, hc]
    · have hc : (p.1 == k') = false := by simpa using hk
      simp only [List.cons_append, List.find?_cons, hc]
      exact ih

theorem find?_upd_map_hit {α : Type} (m : List (Nat × α)) (k : Nat) (v : α)
    (hany : m.any (fun p => p.1 == k) = true) :
    (m.map (fun p => if p.1 == k then (k, v) else p)).find? (fun p => p.1 == k) =
      some (k, v) := by
  induction m with
  | nil => exact Bool.noConfusion hany
  | cons q rest ih =>
    by_cases hq : q.1 = k
    · rw [List.map_cons, show (if (q.1 == k) = true then (k, v) else q) = (k, v) by simp [hq]]
      simp only [List.find?_cons, show ((k, v).1 == k) = true by simp]
    · rw [List.map_cons, show (if (q.1 == k) = true then (k, v) else q) = q by simp [hq]]
      simp only [List.find?_cons, show (q.1 == k) = false by simpa using hq]
      refine ih ?_
      simp only [List.any_cons, show (q.1 == k) = false by simpa using hq,
        Bool.false_or] at hany
      exact hany

theorem find?_append_single_hit {α : Type} (m : List (Nat × α)) (k : Nat) (v : α)
    (hnone : m.find? (fun p => p.1 == k) = none) :
    (m ++ [(k, v)]).find? (fun p => p.1 == k) = some (k, v) := by
  induction m with
  | nil =>
    simp only [List.nil_append, List.find?_cons, show ((k, v).1 == k) = true by simp]
  | cons q rest ih =>
    simp only [List.find?_cons] at hnone
    by_cases hq : q.1 = k
    · rw [show (q.1 == k) = true by simpa using hq] at hnone
      exact Option.noConfusion hnone
    · rw [show (q.1 == k) = false by simpa using hq] at hnone
      simp only [List.cons_append, List.find?_cons, show (q.1 == k) = false by simpa using hq]
      exact ih hnone

theorem aGet_aSet_self {α : Type} (m : List (Nat × α)) (k : Nat) (v : α) :
    aGet (aSet m k v) k = some v := by
  unfold aGet aSet
  by_cases hany : m.any (fun p => p.1 == k) = true
  · rw [if_pos hany, find?_upd_map_hit m k v hany]
    rfl
  · have hnone : m.find? (fun p => p.1 == k) = none := by
      rw [List.find?_eq_none]
      intro p hp hc
      exact hany (List.any_eq_true.mpr ⟨p, hp, hc⟩)
    rw [if_neg hany, find?_append_single_hit m k v hnone]
    rfl

theorem aGet_aSet_ne {α : Type} (m : List (Nat × α)) (k k' : Nat) (v : α)
    (h : k ≠ k') :
    aGet (aSet m k v) k' = aGet m k' := by
  unfold aGet aSet
  split
  · rw [find?_upd_map_nat m k k' v h]
  · rw [find?_append_single_nat m k k' v h]


/-- C6 counterexample run: the engine's internal `metrics.rlnc.allDone` is
`false`; after taking the snapshot `{ ...metrics }` and assigning `true` to
the snapshot's `rlnc.allDone`, reading the engine's own metrics yields
`true` — the nested records are shared, so mutating the returned snapshot
mutates engine-internal metrics. -/
theorem C6_snapshot_shares_nested :
    readRlncAllDone c6Heap 0 = some false ∧
    ((spreadEM c6Heap 0).bind (fun p => writeRlncAllDone p.2 p.1 true)).bind
        (fun h2 => readRlncAllDone h2 0) = some true := by
  decide

/-- C6 (amended): `{ ...metrics }` is a shallow copy. The snapshot is a fresh
top-level object, reads through the engine's reference are unaffected by the
allocation, and reassigning the snapshot's own top-level `rlnc` field leaves
the engine's metrics unchanged; but a write through the snapshot's nested
`rlnc` record is visible through the engine's reference, because the nested
references are copied, not the records. -/
theorem C6_metrics_snapshot (h : JsHeap) (em s : Nat) (h' : JsHeap)
    (hem : em < h.nextAddr)
    (hsp : spreadEM h em = some (s, h')) :
    s ≠ em ∧
    readRlncAllDone h' em = readRlncAllDone h em ∧
    (∀ a h2, writeRlncField h' s a = some h2 →
      readRlncAllDone h2 em = readRlncAllDone h' em) ∧
    (∀ b h2, writeRlncAllDone h' s b = some h2 →
      readRlncAllDone h2 em = some b) := by
  unfold spreadEM at hsp
  cases hr : aGet h.emObjs em with
  | none => rw [hr] at hsp; exact Option.noConfusion hsp
  | some r =>
    rw [hr] at hsp
    dsimp only at hsp
    injection hsp with hsp2
    have hs : h.nextAddr = s := congrArg (fun p => p.1) hsp2
    have hh' : ({ h with emObjs := aSet h.emObjs h.nextAddr ⟨r.rlnc, r.gossipsub⟩, nextAddr := h.nextAddr + 1 } : JsHeap) = h' :=
      congrArg (fun p => p.2) hsp2
    subst hs
    subst hh'
    have hne : h.nextAddr ≠ em := by omega
    have hemq : aGet (aSet h.emObjs h.nextAddr ⟨r.rlnc, r.gossipsub⟩) em = some r := by
      rw [aGet_aSet_ne _ _ _ _ hne, hr]
    refine ⟨by omega, ?_, ?_, ?_⟩
    · unfold readRlncAllDone
      dsimp only
      rw [hemq, hr]
    · intro a h2 hw
      unfold writeRlncField at hw
      dsimp only at hw
      rw [aGet_aSet_self] at hw
      dsimp only at hw
      injection hw with hw2
      rw [← hw2]
      unfold readRlncAllDone
      dsimp only
      rw [aGet_aSet_ne _ _ _ _ hne, hemq]
    · intro b h2 hw
      unfold writeRlncAllDone at hw
      dsimp only at hw
      rw [aGet_aSet_self] at hw
      dsimp only at hw
      cases hm : aGet h.rlncObjs r.rlnc with
      | none => rw [hm] at hw; exact Option.noConfusion hw
      | some m0 =>
        rw [hm] at hw
        dsimp only at hw
        injection hw with hw2
        rw [← hw2]
        unfold readRlncAllDone
        dsimp only
        rw [hemq]
        dsimp only
        rw [aGet_aSet_self]
        rfl

theorem C6_metrics_snapshot_witness :
    0 < c6Heap.nextAddr ∧ (3 : Nat) ≠ 0 :=
  ⟨by decide, (C6_metrics_snapshot c6Heap 0 3 _ (by decide) rfl).1⟩

end Spec2Proof
